import Mathlib

set_option linter.unusedSectionVars false

/-!
# Verification of the obr binaural renderer against its specification

This development gives a shallow embedding of the DSP/configuration components
of the obr binaural rendering library and proves (or refutes) the frozen
claims about it.

Components embedded here, each translated from the corresponding source file:

* `sample_type_conversion.h` — the int16 ↔ float sample converters, over an
  exact model of IEEE-754 binary32 rounding (round to nearest, ties to even)
  carried out in rational arithmetic;
* `peak_limiter.cc` — the release-only peak limiter, over an arbitrary linear
  ordered field (the per-sample algorithm is exact field arithmetic once the
  transcendental constructor constants `ceiling` and `release_time_constant`
  are taken as parameters);
* `ambisonic_encoder.cc` — source map, encoding matrix and `SetSource` /
  `RemoveSource` / `ProcessPlanarAudioData`, with the transcendental functions
  (sin, cos, sqrt and the degree→radian constant) abstracted into a parameter
  structure, since these claims concern the dataflow and gating logic;
* `obr_impl.cc` — the renderer facade: audio element configuration,
  `AddAudioElement`, `InitializeDsp`/`ResetDsp`, `SetHeadRotation`, and the
  encode stage of `Process`, together with `sh_hrir_creator.cc` and the
  binaural filter asset wrapper.

Pieces of the repository that the claims depend on but whose implementation
files are not available (the resampler implementation, `constants.h`,
`ambisonic_utils.h`, the `AudioElementType` enum header, the associated
Legendre polynomial generator implementation, and the `WorldRotation`
quaternion constructor) are modelled from the specification; each such
definition carries a doc comment saying so.
-/

namespace ObrSpec

/-! ## Part 1: binary32 model and sample type conversion

Exact model of IEEE-754 binary32 rounding (round to nearest, ties to even),
computed in rational arithmetic.  Exponents are unbounded, which is adequate
here: every value arising in the int16 conversions is far inside the normal
range of binary32 (magnitudes between `2^-15/32767` and `2^16`), so overflow
and subnormal behaviour never come into play. -/

/-- Fuel-driven helper for the base-2 logarithm, written with structural
recursion so that the kernel can evaluate it. -/
def natLog2Aux : Nat → Nat → Nat
  | 0, _ => 0
  | fuel + 1, n => if 2 ≤ n then natLog2Aux fuel (n / 2) + 1 else 0

/-- Floor of the base-2 logarithm of `n` (0 for `n = 0`). -/
def natLog2 (n : Nat) : Nat := natLog2Aux n n

/-- Whether `b * 2^e ≤ a`, for natural `a b` and integer exponent `e`. -/
def pow2le (e : Int) (b a : Nat) : Bool :=
  if 0 ≤ e then b * 2 ^ e.toNat ≤ a else b ≤ a * 2 ^ (-e).toNat

/-- The integer `e` with `2^e ≤ a/b < 2^(e+1)`, for positive naturals `a b`. -/
def floorLog2 (a b : Nat) : Int :=
  let e0 : Int := (natLog2 a : Int) - (natLog2 b : Int) - 1
  if pow2le (e0 + 1) b a then
    (if pow2le (e0 + 2) b a then e0 + 2 else e0 + 1)
  else e0

/-- Round `p / q` to the nearest integer, ties going to the even integer. -/
def roundHalfEvenDiv (p q : Nat) : Nat :=
  let d := p / q
  let r := p % q
  if 2 * r < q then d
  else if q < 2 * r then d + 1
  else if d % 2 = 0 then d else d + 1

/-- The rational `2^k`, for an integer exponent `k`. -/
def pow2Q (k : Int) : ℚ :=
  if 0 ≤ k then ((2 : ℚ) ^ k.toNat) else ((2 : ℚ) ^ (-k).toNat)⁻¹

/-- Round the positive rational `a / b` to the nearest binary32 value:
scale into `[2^23, 2^24)`, round the 24-bit significand half-to-even, and
scale back. -/
def round32Pos (a b : Nat) : ℚ :=
  let e := floorLog2 a b
  let n :=
    if 0 ≤ 23 - e then roundHalfEvenDiv (a * 2 ^ (23 - e).toNat) b
    else roundHalfEvenDiv a (b * 2 ^ (e - 23).toNat)
  (n : ℚ) * pow2Q (e - 23)

/-- Round a rational to the nearest binary32 value (IEEE rounding is
sign-symmetric). -/
def round32 (x : ℚ) : ℚ :=
  if x = 0 then 0
  else if 0 < x then round32Pos x.num.toNat x.den
  else -round32Pos (-x.num).toNat x.den

/-- `kInt16Max` of `sample_type_conversion.h`: `static_cast<float>(0x7FFF)`. -/
def kInt16Max : ℚ := 32767

/-- `kInt16Min` of `sample_type_conversion.h`: `static_cast<float>(-0x7FFF)`. -/
def kInt16Min : ℚ := -32767

/-- `kInt16ToFloat = 1.0f / kInt16Max`: the float division rounds the exact
quotient once. -/
def kInt16ToFloat : ℚ := round32 (1 / kInt16Max)

/-- `ConvertSampleToFloatFormat(int16_t, float*)`: the int16 promotes to float
exactly, and the single multiplication rounds once. -/
def convertSampleToFloatFormat (v : ℤ) : ℚ := round32 ((v : ℚ) * kInt16ToFloat)

/-- `static_cast<int16_t>` applied to an in-range float: truncation toward
zero. -/
def truncToInt16 (q : ℚ) : ℤ :=
  if 0 ≤ q then (q.num.toNat / q.den : ℕ) else -(((-q.num).toNat / q.den : ℕ) : ℤ)

/-- `ConvertSampleFromFloatFormat(float, int16_t*)`: scale by `kInt16Max`
(one float multiplication, hence one rounding), clamp to
`[kInt16Min, kInt16Max]`, cast to int16. -/
def convertSampleFromFloatFormat (x : ℚ) : ℤ :=
  let scaled := round32 (x * kInt16Max)
  let clamped := min kInt16Max (max kInt16Min scaled)
  truncToInt16 clamped

/-- The int16 → float → int16 round trip of the two sample converters. -/
def roundtripInt16 (v : ℤ) : ℤ :=
  convertSampleFromFloatFormat (convertSampleToFloatFormat v)

/-! ## Part 2: peak limiter (`peak_limiter.cc`)

The per-block algorithm is exact field arithmetic in the samples and in the
two precomputed constructor constants, so it is embedded over an arbitrary
linear ordered field.  The constructor computes
`ceiling_ = pow(10, ceiling_db / 20)` and
`release_time_constant_ = exp(-3 / (sampling_rate * release_ms / 1000))`;
these two transcendental constants are the `ceiling` and
`releaseTimeConstant` parameters below.  An `AudioBuffer` is modelled
channel-major: a list of channels, each channel a list of frames. -/

variable {α : Type} [LinearOrderedField α]

/-- State of a `PeakLimiter`: the two precomputed constants and the envelope
`env_`. -/
structure PeakLimiter (α : Type) where
  ceiling : α
  releaseTimeConstant : α
  env : α
  deriving DecidableEq, Repr

/-- The `PeakLimiter` constructor: stores the precomputed constants and
initializes `env_(1.0)`. -/
def mkPeakLimiter (ceiling releaseTimeConstant : α) : PeakLimiter α :=
  { ceiling := ceiling, releaseTimeConstant := releaseTimeConstant, env := 1 }

/-- `PeakLimiter::GetMaximumRequiredGain`: `ceiling / |sample|` when
`|sample| > ceiling`, else 1. -/
def getMaximumRequiredGain (ceiling : α) (sample : α) : α :=
  if ceiling < |sample| then ceiling / |sample| else 1

/-- First loop of `PeakLimiter::Process`: starting from a zero vector of
`num_frames` entries, fold every channel in with
`max_samples[frame] = max(max_samples[frame], abs(channel[frame]))`. -/
def maxSamples (input : List (List α)) (numFrames : ℕ) : List α :=
  input.foldl (fun acc ch => acc.zipWith (fun m x => max m |x|) ch)
    (List.replicate numFrames 0)

/-- Second loop of `PeakLimiter::Process`: thread the envelope through the
per-frame maxima, recording the envelope value at every frame and the final
envelope. -/
def limiterEnvLoop (ceiling rtc : α) : α → List α → List α × α
  | e, [] => ([], e)
  | e, m :: ms =>
    let g := getMaximumRequiredGain ceiling m
    let e' := if g < e then g else rtc * (e - g) + g
    let tail := limiterEnvLoop ceiling rtc e' ms
    (e' :: tail.1, tail.2)

/-- `PeakLimiter::Process`: compute the cross-channel per-frame maxima, run
the envelope, scale every channel by the per-frame envelope, and keep the
final envelope as the new state.  (`num_frames` is the common channel length,
read off the first channel as `AudioBuffer::num_frames` would report it.) -/
def PeakLimiter.process (st : PeakLimiter α) (input : List (List α)) :
    List (List α) × PeakLimiter α :=
  let numFrames := (input.headD []).length
  let ms := maxSamples input numFrames
  let envs := limiterEnvLoop st.ceiling st.releaseTimeConstant st.env ms
  (input.map (fun ch => ch.zipWith (· * ·) envs.1), { st with env := envs.2 })

/-- Feeding a sequence of blocks through `Process` in order, threading the
limiter state. -/
def processBlocks (st : PeakLimiter α) :
    List (List (List α)) → List (List (List α)) × PeakLimiter α
  | [] => ([], st)
  | b :: bs =>
    let y := st.process b
    let ys := processBlocks y.2 bs
    (y.1 :: ys.1, ys.2)

/-- Concatenating consecutive channel-major blocks of a `C`-channel stream
into one block. -/
def joinBlocks (C : ℕ) : List (List (List α)) → List (List α)
  | [] => List.replicate C []
  | b :: bs => b.zipWith (· ++ ·) (joinBlocks C bs)

/-- Specification-side per-frame cross-channel peak: `m_i` is the maximum of
`|x_{k,i}|` over the channels `k` (claim C5). -/
def specFrameMax (input : List (List α)) (i : ℕ) : α :=
  (input.map (fun ch => |ch.getD i 0|)).foldl max 0

/-- Specification-side envelope update of claim C5: `g = c/m` if `m > c` else
1; then instantaneous attack `e := g` when `g < e`, else release
`e := rtc*(e - g) + g`. -/
def specEnvStep (ceiling rtc : α) (e m : α) : α :=
  let g := if ceiling < m then ceiling / m else 1
  if g < e then g else rtc * (e - g) + g

/-! ## Part 3: Ambisonic encoder (`ambisonic_encoder.cc`)

The encoder's dataflow (source cache, gating, matrix update, matrix product)
is exact field arithmetic; the transcendental routines it calls (`std::sin`,
`std::cos`, `std::sqrt` and the constant `kRadiansFromDegrees = π/180`) are
abstracted into a `RealFuns` parameter, and every theorem below holds for
every interpretation of that parameter. -/

/-- The transcendental float routines used by the encoder, as abstract
functions. -/
structure RealFuns (α : Type) where
  sin : α → α
  cos : α → α
  sqrt : α → α
  radiansFromDegrees : α

/-- Modelled from the spec: `kNegative120dbInAmplitude` of `constants.h`
(whose file is not in the sources); the spec fixes the mute threshold at
`10^-6`, i.e. −120 dBFS in amplitude. -/
def kNegative120dbInAmplitude : α := 1 / 1000000

/-- Modelled from the spec: `AcnSequence(degree, order)` of
`ambisonic_utils.h` (whose file is not in the sources); the spec defines the
ACN channel index as `ℓ(ℓ+1) + m`. -/
def acnSequence (degree order : ℤ) : ℤ := degree * degree + degree + order

/-- Modelled from the spec: `Sn3dNormalization(degree, order)` of
`ambisonic_utils.h`; SN3D normalization
`sqrt((2 - δ_{m0}) (ℓ-|m|)! / (ℓ+|m|)!)`. -/
def sn3dNormalization (T : RealFuns α) (degree : ℕ) (order : ℤ) : α :=
  T.sqrt ((if order = 0 then 1 else 2)
    * ((degree - order.natAbs).factorial : α) / ((degree + order.natAbs).factorial : α))

/-- Modelled from the spec: the associated Legendre polynomial `P_ℓ^m(x)`
(no Condon–Shortley phase), computed by the recurrence of the spec:
`P_0^0 = 1`, `P_ℓ^ℓ = (2ℓ-1)√(1-x²) P_{ℓ-1}^{ℓ-1}`,
`P_ℓ^{ℓ-1} = (2ℓ-1) x P_{ℓ-1}^{ℓ-1}`, and for `m < ℓ-1`
`P_ℓ^m = ((2ℓ-1) x P_{ℓ-1}^m - (ℓ+m-1) P_{ℓ-2}^m) / (ℓ-m)`.
(The generator's implementation file is not in the sources; only its header
is.) -/
def alp (T : RealFuns α) (x : α) : ℕ → ℕ → α
  | 0, _ => 1
  | ℓ + 1, m =>
    if m = ℓ + 1 then ((2 * (ℓ + 1) - 1 : ℕ) : α) * T.sqrt (1 - x * x) * alp T x ℓ ℓ
    else if m = ℓ then ((2 * (ℓ + 1) - 1 : ℕ) : α) * x * alp T x ℓ ℓ
    else
      match ℓ with
      | 0 => 0
      | ℓ' + 1 =>
        (((2 * (ℓ' + 2) - 1 : ℕ) : α) * x * alp T x (ℓ' + 1) m
            - ((ℓ' + 2 + m - 1 : ℕ) : α) * alp T x ℓ' m)
          / ((ℓ' + 2 - m : ℕ) : α)

/-- One spherical-harmonic coefficient as computed inside
`AmbisonicEncoder::GetShCoeffs`: SN3D normalization times the ALP at
`sin(elevation_rad)` times `cos(m·az)` for `m ≥ 0` or `sin(-m·az)` for
`m < 0`. -/
def shEntry (T : RealFuns α) (azimuthRad elevationRad : α) (degree : ℕ) (ord : ℤ) : α :=
  let lastTerm :=
    if 0 ≤ ord then T.cos ((ord : α) * azimuthRad)
    else T.sin (((-ord : ℤ) : α) * azimuthRad)
  sn3dNormalization T degree ord * alp T (T.sin elevationRad) degree ord.natAbs * lastTerm

/-- `AmbisonicEncoder::GetShCoeffs`: the double loop over `degree` from 0 to
the Ambisonic order and `order` from `-degree` to `degree` writes
`coeffs.at(AcnSequence(degree, order))`; since `AcnSequence(ℓ,m) = ℓ²+ℓ+m`
enumerates `0, 1, …, (N+1)²-1` in exactly this loop order (and is never −1,
so the skip branch is dead), the filled vector is this concatenation. -/
def getShCoeffs (T : RealFuns α) (azimuth elevation : α) (order : ℕ) : List α :=
  let azimuthRad := azimuth * T.radiansFromDegrees
  let elevationRad := elevation * T.radiansFromDegrees
  (List.range (order + 1)).flatMap (fun degree =>
    (List.range (2 * degree + 1)).map (fun (k : ℕ) =>
      shEntry T azimuthRad elevationRad degree ((k : ℤ) - degree)))

/-- The source record cached per input channel by the encoder
(`AmbisonicEncoder::SourceConfig`). -/
structure SourceEntry (α : Type) where
  gain : α
  azimuth : α
  elevation : α
  distance : α
  deriving DecidableEq

/-- `AmbisonicEncoder` state: dimensions, the source cache
(`absl::flat_hash_map` keyed by input channel), and the encoding matrix,
stored column-major (column `c` is the `(N+1)²`-entry column of input
channel `c`). -/
structure AmbisonicEncoder (α : Type) where
  numberOfInputChannels : ℕ
  ambisonicOrder : ℕ
  sources : ℕ → Option (SourceEntry α)
  encodingMatrix : ℕ → List α

/-- `(ambisonic_order + 1)^2`, the `number_of_output_channels_`. -/
def AmbisonicEncoder.numberOfOutputChannels (enc : AmbisonicEncoder α) : ℕ :=
  (enc.ambisonicOrder + 1) * (enc.ambisonicOrder + 1)

/-- The `AmbisonicEncoder` constructor: empty source map, zero encoding
matrix. -/
def mkAmbisonicEncoder (numberOfInputChannels ambisonicOrder : ℕ) :
    AmbisonicEncoder α :=
  { numberOfInputChannels := numberOfInputChannels
    ambisonicOrder := ambisonicOrder
    sources := fun _ => none
    encodingMatrix := fun _ =>
      List.replicate ((ambisonicOrder + 1) * (ambisonicOrder + 1)) 0 }

/-- `AmbisonicEncoder::SetSource`.  The `CHECK_LT(input_channel, n)` aborts
on an out-of-range channel; theorems therefore carry the validity hypothesis.
Faithful to the source: insert `{0,0,0,0}` when the key is absent; return
early when the cached tuple equals the new one; otherwise store the tuple,
compute `overall_gain = gain / max(distance, 0.5)`, zero the column when it
is below `kNegative120dbInAmplitude`, else write
`sh_coeffs[i] * overall_gain` into column `input_channel`. -/
def setSource (T : RealFuns α) (enc : AmbisonicEncoder α) (inputChannel : ℕ)
    (gain azimuth elevation distance : α) : AmbisonicEncoder α :=
  let sources0 : ℕ → Option (SourceEntry α) :=
    if (enc.sources inputChannel).isNone then
      fun c => if c = inputChannel then some ⟨0, 0, 0, 0⟩ else enc.sources c
    else enc.sources
  let cur := (sources0 inputChannel).getD ⟨0, 0, 0, 0⟩
  if cur = ⟨gain, azimuth, elevation, distance⟩ then
    { enc with sources := sources0 }
  else
    let sources1 : ℕ → Option (SourceEntry α) :=
      fun c => if c = inputChannel then some ⟨gain, azimuth, elevation, distance⟩
        else sources0 c
    let overallGain := gain / max distance (1 / 2)
    if overallGain < kNegative120dbInAmplitude then
      { enc with
        sources := sources1
        encodingMatrix := fun c =>
          if c = inputChannel then List.replicate enc.numberOfOutputChannels 0
          else enc.encodingMatrix c }
    else
      { enc with
        sources := sources1
        encodingMatrix := fun c =>
          if c = inputChannel then
            (getShCoeffs T azimuth elevation enc.ambisonicOrder).map (· * overallGain)
          else enc.encodingMatrix c }

/-- `AmbisonicEncoder::RemoveSource`: drop the cache entry and zero the
column. -/
def removeSource (enc : AmbisonicEncoder α) (inputChannel : ℕ) :
    AmbisonicEncoder α :=
  { enc with
    sources := fun c => if c = inputChannel then none else enc.sources c
    encodingMatrix := fun c =>
      if c = inputChannel then List.replicate enc.numberOfOutputChannels 0
      else enc.encodingMatrix c }

/-- `AmbisonicEncoder::ProcessPlanarAudioData`: the dense matrix product
`encoded = E · input` (buffers indexed channel, then frame). -/
def processPlanarAudioData (enc : AmbisonicEncoder α) (input : ℕ → ℕ → α) :
    ℕ → ℕ → α :=
  fun r f => ∑ c ∈ Finset.range enc.numberOfInputChannels,
    (enc.encodingMatrix c).getD r 0 * input c f

/-- The column that claim C3 specifies for a stored source: overall gain
`g = gain / max(distance, 0.5)`; a zero column when `g < 10^-6`; otherwise
`g` times the SN3D spherical-harmonic coefficients of the direction, in ACN
order. -/
def encodeColumn (T : RealFuns α) (order nOut : ℕ) (s : SourceEntry α) : List α :=
  let overallGain := s.gain / max s.distance (1 / 2)
  if overallGain < kNegative120dbInAmplitude then List.replicate nOut 0
  else (getShCoeffs T s.azimuth s.elevation order).map (· * overallGain)

/-- Encoder coherence at channel `c`: the column of `c` is the encoding of
the cached source of `c` (the zero column when no source is cached).  This
holds for every reachable encoder state and is preserved by every encoder
operation. -/
def encInvAt (T : RealFuns α) (enc : AmbisonicEncoder α) (c : ℕ) : Prop :=
  match enc.sources c with
  | none => enc.encodingMatrix c
      = List.replicate enc.numberOfOutputChannels 0
  | some s => enc.encodingMatrix c
      = encodeColumn T enc.ambisonicOrder enc.numberOfOutputChannels s


/-! ## Part 4: renderer facade (`obr_impl.cc`), HRIR loading
(`sh_hrir_creator.cc`), and the binaural filter asset wrapper -/

/-- Modelled from the spec: `kMinSupportedAmbisonicOrder` of `constants.h`
(file not in the sources); the spec supports Ambisonic orders 1–7. -/
def kMinSupportedAmbisonicOrder : ℕ := 1

/-- Modelled from the spec: `kMaxSupportedAmbisonicOrder` of `constants.h`. -/
def kMaxSupportedAmbisonicOrder : ℕ := 7

/-- Modelled from the spec: `kNumBinauralChannels` (stereo output). -/
def kNumBinauralChannels : ℕ := 2

/-- The `AudioElementType` enum of `audio_element_type.h` (the header file is
not in the sources; the constructor list is pinned by
`audio_element_type_test.cc` and the spec).  Each Ambisonic order is its own
enum value. -/
inductive AudioElementType where
  | k1OA | k2OA | k3OA | k4OA | k5OA | k6OA | k7OA
  | kLayoutMono | kLayoutStereo
  | kLayout3_1_2_ch
  | kLayout5_1_0_ch | kLayout5_1_2_ch | kLayout5_1_4_ch
  | kLayout7_1_0_ch | kLayout7_1_2_ch | kLayout7_1_4_ch
  | kLayout9_1_0_ch | kLayout9_1_2_ch | kLayout9_1_4_ch | kLayout9_1_6_ch
  | kObjectMono
  deriving DecidableEq, Repr

open AudioElementType in
/-- `IsAmbisonicsType` (pinned by `audio_element_type_test.cc`). -/
def isAmbisonicsType : AudioElementType → Bool
  | k1OA | k2OA | k3OA | k4OA | k5OA | k6OA | k7OA => true
  | _ => false

open AudioElementType in
/-- `IsObjectType` (pinned by `audio_element_type_test.cc`). -/
def isObjectType : AudioElementType → Bool
  | kObjectMono => true
  | _ => false

/-- `IsLoudspeakerLayoutType` (pinned by `audio_element_type_test.cc`). -/
def isLoudspeakerLayoutType (t : AudioElementType) : Bool :=
  ¬isAmbisonicsType t ∧ ¬isObjectType t

open AudioElementType in
/-- `GetAmbisonicOrder` (pinned by `audio_element_type_test.cc`): the order
for the seven Ambisonic types, an error otherwise. -/
def getAmbisonicOrder : AudioElementType → Option ℕ
  | k1OA => some 1
  | k2OA => some 2
  | k3OA => some 3
  | k4OA => some 4
  | k5OA => some 5
  | k6OA => some 6
  | k7OA => some 7
  | _ => none

/-- One loudspeaker input channel of `loudspeaker_layouts.h`:
label, azimuth°, elevation°, distance, LFE flag. -/
structure LoudspeakerChannel where
  id : String
  azimuth : ℚ
  elevation : ℚ
  distance : ℚ
  isLFE : Bool
  deriving DecidableEq, Repr

/-- One audio object input channel (`AudioObjectInputChannel`):
azimuth°, elevation°, distance, mutable via `UpdateObjectPosition`. -/
structure ObjectChannel where
  id : String
  azimuth : ℚ
  elevation : ℚ
  distance : ℚ
  deriving DecidableEq, Repr

open AudioElementType in
/-- The loudspeaker layout tables of `loudspeaker_layouts.h`
(`loudspeaker_map` composed with `layout_map`). -/
def getLoudspeakerLayout : AudioElementType → List LoudspeakerChannel
  | kLayoutMono => [⟨"kC", 0, 0, 1, false⟩]
  | kLayoutStereo => [⟨"kL30", 30, 0, 1, false⟩, ⟨"kR30", -30, 0, 1, false⟩]
  | kLayout3_1_2_ch =>
    [⟨"kL45", 45, 0, 1, false⟩, ⟨"kR45", -45, 0, 1, false⟩,
     ⟨"kC", 0, 0, 1, false⟩, ⟨"kLFE", 0, -30, 1, true⟩,
     ⟨"kTL30", 30, 45, 1, false⟩, ⟨"kTR30", -30, 45, 1, false⟩]
  | kLayout5_1_0_ch =>
    [⟨"kL30", 30, 0, 1, false⟩, ⟨"kR30", -30, 0, 1, false⟩,
     ⟨"kC", 0, 0, 1, false⟩, ⟨"kLFE", 0, -30, 1, true⟩,
     ⟨"kL110", 110, 0, 1, false⟩, ⟨"kR110", -110, 0, 1, false⟩]
  | kLayout5_1_2_ch =>
    [⟨"kL30", 30, 0, 1, false⟩, ⟨"kR30", -30, 0, 1, false⟩,
     ⟨"kC", 0, 0, 1, false⟩, ⟨"kLFE", 0, -30, 1, true⟩,
     ⟨"kL110", 110, 0, 1, false⟩, ⟨"kR110", -110, 0, 1, false⟩,
     ⟨"kTL90", 90, 45, 1, false⟩, ⟨"kTR90", -90, 45, 1, false⟩]
  | kLayout5_1_4_ch =>
    [⟨"kL30", 30, 0, 1, false⟩, ⟨"kR30", -30, 0, 1, false⟩,
     ⟨"kC", 0, 0, 1, false⟩, ⟨"kLFE", 0, -30, 1, true⟩,
     ⟨"kL110", 110, 0, 1, false⟩, ⟨"kR110", -110, 0, 1, false⟩,
     ⟨"kTL45", 45, 45, 1, false⟩, ⟨"kTR45", -45, 45, 1, false⟩,
     ⟨"kTL135", 135, 45, 1, false⟩, ⟨"kTR135", -135, 45, 1, false⟩]
  | kLayout7_1_0_ch =>
    [⟨"kL30", 30, 0, 1, false⟩, ⟨"kR30", -30, 0, 1, false⟩,
     ⟨"kC", 0, 0, 1, false⟩, ⟨"kLFE", 0, -30, 1, true⟩,
     ⟨"kL90", 90, 0, 1, false⟩, ⟨"kR90", -90, 0, 1, false⟩,
     ⟨"kL135", 135, 0, 1, false⟩, ⟨"kR135", -135, 0, 1, false⟩]
  | kLayout7_1_2_ch =>
    [⟨"kL30", 30, 0, 1, false⟩, ⟨"kR30", -30, 0, 1, false⟩,
     ⟨"kC", 0, 0, 1, false⟩, ⟨"kLFE", 0, -30, 1, true⟩,
     ⟨"kL90", 90, 0, 1, false⟩, ⟨"kR90", -90, 0, 1, false⟩,
     ⟨"kL135", 135, 0, 1, false⟩, ⟨"kR135", -135, 0, 1, false⟩,
     ⟨"kTL90", 90, 45, 1, false⟩, ⟨"kTR90", -90, 45, 1, false⟩]
  | kLayout7_1_4_ch =>
    [⟨"kL30", 30, 0, 1, false⟩, ⟨"kR30", -30, 0, 1, false⟩,
     ⟨"kC", 0, 0, 1, false⟩, ⟨"kLFE", 0, -30, 1, true⟩,
     ⟨"kL90", 90, 0, 1, false⟩, ⟨"kR90", -90, 0, 1, false⟩,
     ⟨"kL135", 135, 0, 1, false⟩, ⟨"kR135", -135, 0, 1, false⟩,
     ⟨"kTL45", 45, 45, 1, false⟩, ⟨"kTR45", -45, 45, 1, false⟩,
     ⟨"kTL135", 135, 45, 1, false⟩, ⟨"kTR135", -135, 45, 1, false⟩]
  | kLayout9_1_0_ch =>
    [⟨"kL30", 30, 0, 1, false⟩, ⟨"kR30", -30, 0, 1, false⟩,
     ⟨"kC", 0, 0, 1, false⟩, ⟨"kLFE", 0, -30, 1, true⟩,
     ⟨"kL60", 60, 0, 1, false⟩, ⟨"kR60", -60, 0, 1, false⟩,
     ⟨"kL90", 90, 0, 1, false⟩, ⟨"kR90", -90, 0, 1, false⟩,
     ⟨"kL135", 135, 0, 1, false⟩, ⟨"kR135", -135, 0, 1, false⟩]
  | kLayout9_1_2_ch =>
    [⟨"kL30", 30, 0, 1, false⟩, ⟨"kR30", -30, 0, 1, false⟩,
     ⟨"kC", 0, 0, 1, false⟩, ⟨"kLFE", 0, -30, 1, true⟩,
     ⟨"kL60", 60, 0, 1, false⟩, ⟨"kR60", -60, 0, 1, false⟩,
     ⟨"kL90", 90, 0, 1, false⟩, ⟨"kR90", -90, 0, 1, false⟩,
     ⟨"kL135", 135, 0, 1, false⟩, ⟨"kR135", -135, 0, 1, false⟩,
     ⟨"kTL90", 90, 45, 1, false⟩, ⟨"kTR90", -90, 45, 1, false⟩]
  | kLayout9_1_4_ch =>
    [⟨"kL30", 30, 0, 1, false⟩, ⟨"kR30", -30, 0, 1, false⟩,
     ⟨"kC", 0, 0, 1, false⟩, ⟨"kLFE", 0, -30, 1, true⟩,
     ⟨"kL60", 60, 0, 1, false⟩, ⟨"kR60", -60, 0, 1, false⟩,
     ⟨"kL90", 90, 0, 1, false⟩, ⟨"kR90", -90, 0, 1, false⟩,
     ⟨"kL135", 135, 0, 1, false⟩, ⟨"kR135", -135, 0, 1, false⟩,
     ⟨"kTL45", 45, 45, 1, false⟩, ⟨"kTR45", -45, 45, 1, false⟩,
     ⟨"kTL135", 135, 45, 1, false⟩, ⟨"kTR135", -135, 45, 1, false⟩]
  | kLayout9_1_6_ch =>
    [⟨"kL30", 30, 0, 1, false⟩, ⟨"kR30", -30, 0, 1, false⟩,
     ⟨"kC", 0, 0, 1, false⟩, ⟨"kLFE", 0, -30, 1, true⟩,
     ⟨"kL60", 60, 0, 1, false⟩, ⟨"kR60", -60, 0, 1, false⟩,
     ⟨"kL90", 90, 0, 1, false⟩, ⟨"kR90", -90, 0, 1, false⟩,
     ⟨"kL135", 135, 0, 1, false⟩, ⟨"kR135", -135, 0, 1, false⟩,
     ⟨"kTL30", 30, 45, 1, false⟩, ⟨"kTR30", -30, 45, 1, false⟩,
     ⟨"kTL90", 90, 45, 1, false⟩, ⟨"kTR90", -90, 45, 1, false⟩,
     ⟨"kTL150", 150, 45, 1, false⟩, ⟨"kTR150", -150, 45, 1, false⟩]
  | _ => []

/-- `AudioElementConfig` of `audio_element_config.cc`: type tag, first input
channel, derived channel count, binaural filter order, plus the per-channel
descriptors.  (The per-channel absolute channel indices maintained by
`SetFirstChannelIndex` are `first_channel_index + i` and are used only for
logging; they are not stored separately here.) -/
structure AudioElementConfig where
  type : AudioElementType
  firstChannelIndex : ℕ
  numberOfInputChannels : ℕ
  binauralFiltersAmbisonicOrder : ℕ
  numAmbisonicChannels : ℕ
  loudspeakerChannels : List LoudspeakerChannel
  objectChannels : List ObjectChannel
  deriving DecidableEq, Repr

/-- The `AudioElementConfig(type)` constructor: Ambisonic types get
`(order+1)²` ACN channels and binaural filters of the same order;
loudspeaker layouts get their table channels and binaural filters of the
maximum supported order; `kObjectMono` gets one object channel at
`(0°, 0°, 1)` and the maximum order; the first channel index starts at 0. -/
def mkAudioElementConfig (t : AudioElementType) : AudioElementConfig :=
  if isAmbisonicsType t then
    let order := (getAmbisonicOrder t).getD 0
    { type := t, firstChannelIndex := 0
      numberOfInputChannels := (order + 1) * (order + 1)
      binauralFiltersAmbisonicOrder := order
      numAmbisonicChannels := (order + 1) * (order + 1)
      loudspeakerChannels := [], objectChannels := [] }
  else if isLoudspeakerLayoutType t then
    let channels := getLoudspeakerLayout t
    { type := t, firstChannelIndex := 0
      numberOfInputChannels := channels.length
      binauralFiltersAmbisonicOrder := kMaxSupportedAmbisonicOrder
      numAmbisonicChannels := 0
      loudspeakerChannels := channels, objectChannels := [] }
  else
    { type := t, firstChannelIndex := 0
      numberOfInputChannels := 1
      binauralFiltersAmbisonicOrder := kMaxSupportedAmbisonicOrder
      numAmbisonicChannels := 0
      loudspeakerChannels := []
      objectChannels := [⟨"kMono", 0, 0, 1⟩] }

/-- `AudioElementConfig::SetFirstChannelIndex`. -/
def AudioElementConfig.setFirstChannelIndex (cfg : AudioElementConfig)
    (first : ℕ) : AudioElementConfig :=
  { cfg with firstChannelIndex := first }

/-- Modelled from the spec: `WorldRotation(w, x, y, z)` of `misc_math.h`
(file not in the sources) is an Eigen-style quaternion constructor that
stores the four components exactly as given, with no validation or
normalization. -/
structure WorldRotation where
  w : ℚ
  x : ℚ
  y : ℚ
  z : ℚ
  deriving DecidableEq, Repr

/-- A decoded 16-bit PCM RIFF-WAVE asset (`Wav`): channel count, sample
rate, interleaved int16 samples. -/
structure WavData where
  numChannels : ℕ
  sampleRate : ℤ
  interleavedSamples : List ℤ
  deriving DecidableEq, Repr

/-- A planar float `AudioBuffer` as produced by the HRIR loader. -/
structure AudioBufferM where
  numChannels : ℕ
  numFrames : ℕ
  data : List (List ℚ)
  deriving DecidableEq, Repr

/-- `FillAudioBuffer` on interleaved int16 WAV data
(`planar_interleaved_conversion.cc`): deinterleave and convert each sample
with `ConvertSampleToFloatFormat`. -/
def fillAudioBufferFromWav (wav : WavData) : AudioBufferM :=
  let frames := wav.interleavedSamples.length / wav.numChannels
  { numChannels := wav.numChannels
    numFrames := frames
    data := (List.range wav.numChannels).map (fun ch =>
      (List.range frames).map (fun f =>
        convertSampleToFloatFormat
          (wav.interleavedSamples.getD (f * wav.numChannels + ch) 0))) }

/-- Modelled from the spec: `IsValidAmbisonicOrder(num_channels)` of
`ambisonic_utils.h` (file not in the sources): a nonzero perfect-square
channel count (the spec requires `(N+1)²` channels for order `N`). -/
def isValidAmbisonicOrderChannels (numChannels : ℕ) : Bool :=
  numChannels ≠ 0 ∧ (List.range (numChannels + 1)).any (fun k =>
    k * k = numChannels)

/-- Modelled from the spec: `Resampler::AreSampleRatesSupported` (the
resampler implementation file is not in the sources): accept exactly the
tested pairs — 44100 ↔ 48000 in either direction, and the 48000 identity. -/
def areSampleRatesSupported (source destination : ℤ) : Bool :=
  (source = 44100 ∧ destination = 48000)
    ∨ (source = 48000 ∧ destination = 44100)
    ∨ (source = 48000 ∧ destination = 48000)

/-- The key → asset table of the binaural filters wrapper
(`binaural_filters_wrapper.cc`): keys `"1OA_L"` … `"7OA_R"`.  The asset
byte contents are opaque generated data, abstracted as the `assetData`
parameter mapping (order, isLeft) to decoded WAV content. -/
def kAssetMapKeys : List (String × (ℕ × Bool)) :=
  [("1OA_L", (1, true)), ("1OA_R", (1, false)),
   ("2OA_L", (2, true)), ("2OA_R", (2, false)),
   ("3OA_L", (3, true)), ("3OA_R", (3, false)),
   ("4OA_L", (4, true)), ("4OA_R", (4, false)),
   ("5OA_L", (5, true)), ("5OA_R", (5, false)),
   ("6OA_L", (6, true)), ("6OA_R", (6, false)),
   ("7OA_L", (7, true)), ("7OA_R", (7, false))]

/-- `BinauralFiltersWrapper::GetFile`: look the filename up in the asset
map; unknown keys yield null. -/
def binauralFiltersGetFile (assetData : ℕ → Bool → WavData)
    (filename : String) : Option WavData :=
  (kAssetMapKeys.find? (fun p => p.1 = filename)).map
    (fun p => assetData p.2.1 p.2.2)

/-- Outcome of HRIR loading: a buffer, or process abort (`LOG(FATAL)`,
`ABSL_DIE_IF_NULL`, failed `CHECK`).  There is no error-return case in this
code path. -/
inductive HrirLoadResult where
  | ok : AudioBufferM → HrirLoadResult
  | fatal : HrirLoadResult
  deriving DecidableEq, Repr

/-- `CreateShHrirsFromWav` of `sh_hrir_creator.cc`: check the channel count
(`CHECK` aborts), build the planar buffer, and if the WAV rate differs from
the target rate, abort with `LOG(FATAL)` when the pair is unsupported, else
resample.  The resampler implementation is not in the sources, so the
resampled buffer is produced by the `resample` parameter. -/
def createShHrirsFromWav (resample : WavData → ℤ → AudioBufferM)
    (wav : WavData) (targetSampleRate : ℤ) : HrirLoadResult :=
  if ¬isValidAmbisonicOrderChannels wav.numChannels then .fatal
  else
    let shHrirs := fillAudioBufferFromWav wav
    if wav.sampleRate ≠ targetSampleRate then
      if ¬areSampleRatesSupported wav.sampleRate targetSampleRate then .fatal
      else .ok (resample wav targetSampleRate)
    else .ok shHrirs

/-- `CreateShHrirsFromAssets` of `sh_hrir_creator.cc`: fetch the asset; a
missing key is dereferenced through `ABSL_DIE_IF_NULL` after only a
`LOG(ERROR)`, i.e. the process aborts; otherwise decode and convert. -/
def createShHrirsFromAssets (assetData : ℕ → Bool → WavData)
    (resample : WavData → ℤ → AudioBufferM) (filename : String)
    (targetSampleRate : ℤ) : HrirLoadResult :=
  match binauralFiltersGetFile assetData filename with
  | none => .fatal
  | some wav => createShHrirsFromWav resample wav targetSampleRate


/-- Constructor arguments of the Ambisonic binaural decoder
(`AmbisonicBinauralDecoder(sh_hrirs_L, sh_hrirs_R, frames_per_buffer, ...)`);
the decoder's filter-bank state is a pure function of these. -/
structure DecoderState where
  shHrirsL : AudioBufferM
  shHrirsR : AudioBufferM
  framesPerBuffer : ℕ
  deriving DecidableEq, Repr

/-- Constructor arguments of the peak limiter instance created by
`InitializeDsp` (`PeakLimiter(sampling_rate_, 50, -0.5)`); its derived
transcendental constants and the unit initial envelope are pure functions of
these. -/
structure LimiterCtorState where
  samplingRate : ℤ
  releaseMs : ℚ
  ceilingDb : ℚ
  deriving DecidableEq, Repr

/-- The `ObrImpl` renderer state: constructor parameters, head-tracking
state, the audio element list, and the DSP components owned through
`std::unique_ptr` (`none` = released).  The Ambisonic rotator implementation
is not in the sources (only its tests are); the renderer stores only its
constructor argument, the operational order. -/
structure ObrImpl where
  bufferSizePerChannel : ℕ
  samplingRate : ℤ
  headTrackingEnabled : Bool
  worldRotation : WorldRotation
  audioElements : List AudioElementConfig
  ambisonicMixBed : List (List ℚ)
  ambisonicEncoderInputShape : ℕ × ℕ
  ambisonicEncoder : Option (AmbisonicEncoder ℚ)
  ambisonicRotator : Option ℕ
  shHrirsL : Option AudioBufferM
  shHrirsR : Option AudioBufferM
  ambisonicBinauralDecoder : Option DecoderState
  peakLimiter : Option LimiterCtorState

/-- The `ObrImpl(buffer_size_per_channel, sampling_rate)` constructor
(`CHECK`s require both positive; the default-constructed `WorldRotation()`
components are written here as the identity quaternion). -/
def mkObrImpl (bufferSizePerChannel : ℕ) (samplingRate : ℤ) : ObrImpl :=
  { bufferSizePerChannel := bufferSizePerChannel
    samplingRate := samplingRate
    headTrackingEnabled := false
    worldRotation := ⟨1, 0, 0, 0⟩
    audioElements := []
    ambisonicMixBed := []
    ambisonicEncoderInputShape := (0, 0)
    ambisonicEncoder := none
    ambisonicRotator := none
    shHrirsL := none
    shHrirsR := none
    ambisonicBinauralDecoder := none
    peakLimiter := none }

/-- `ObrImpl::GetNumberOfInputChannels`: sum of the per-element channel
counts. -/
def getNumberOfInputChannels (s : ObrImpl) : ℕ :=
  (s.audioElements.map (fun e => e.numberOfInputChannels)).sum

/-- `ObrImpl::GetAmbisonicEncoderSourceChannelIndices`: the absolute input
channel indices of every loudspeaker-layout or object element, in element
order. -/
def getAmbisonicEncoderSourceChannelIndices (s : ObrImpl) : List ℕ :=
  s.audioElements.flatMap (fun e =>
    if isLoudspeakerLayoutType e.type ∨ isObjectType e.type then
      (List.range e.numberOfInputChannels).map (fun i => e.firstChannelIndex + i)
    else [])

/-- `ObrImpl::ResetDsp`: release every DSP component and clear the mix bed
(always returns OK). -/
def resetDsp (s : ObrImpl) : ObrImpl :=
  { s with
    ambisonicBinauralDecoder := none
    shHrirsL := none
    shHrirsR := none
    ambisonicEncoder := none
    peakLimiter := none
    ambisonicRotator := none
    ambisonicMixBed := s.ambisonicMixBed.map (fun ch => List.replicate ch.length 0) }

/-- Outcome of a configuration call: success, a typed error status carrying
a human-readable message (and the object state at the early return), or a
process abort (failed `CHECK` / `LOG(FATAL)` / `ABSL_DIE_IF_NULL`). -/
inductive ObrResult where
  | ok : ObrImpl → ObrResult
  | err : String → ObrImpl → ObrResult
  | fatal : ObrResult

/-- `ObrImpl::UpdateAmbisonicEncoder`: if the encoder exists, re-issue
`SetSource(idx, 1.0, azimuth, elevation, distance)` for every loudspeaker
channel and then every object channel of every element, with a running
encoder input index; otherwise a failed-precondition error. -/
def updateAmbisonicEncoder (T : RealFuns ℚ) (s : ObrImpl) : ObrResult :=
  match s.ambisonicEncoder with
  | some enc =>
    let chans := s.audioElements.flatMap (fun e =>
      e.loudspeakerChannels.map (fun ch => (ch.azimuth, ch.elevation, ch.distance))
        ++ e.objectChannels.map (fun ch => (ch.azimuth, ch.elevation, ch.distance)))
    let enc' := ((List.range chans.length).zip chans).foldl
      (fun acc p => setSource T acc p.1 1 p.2.1 p.2.2.1 p.2.2.2) enc
    .ok { s with ambisonicEncoder := some enc' }
  | none => .err "Ambisonic encoder not initialized." s

/-- The HRIR-loading tail of `ObrImpl::InitializeDsp`: load the left and
right SH-HRIR banks for the operational order (each load either succeeds or
aborts the process), `CHECK` that their shapes agree, then construct the
binaural decoder and the peak limiter. -/
def initializeDspHrirStage (assetData : ℕ → Bool → WavData)
    (resample : WavData → ℤ → AudioBufferM) (order : ℕ)
    (bufferSize : ℕ) (samplingRate : ℤ) (s5 : ObrImpl) : ObrResult :=
  match createShHrirsFromAssets assetData resample
      (toString order ++ "OA_L") samplingRate with
  | .fatal => .fatal
  | .ok hrirsL =>
    match createShHrirsFromAssets assetData resample
        (toString order ++ "OA_R") samplingRate with
    | .fatal => .fatal
    | .ok hrirsR =>
      if ¬(hrirsL.numChannels = hrirsR.numChannels
          ∧ hrirsL.numFrames = hrirsR.numFrames) then .fatal
      else
        .ok { s5 with
          shHrirsL := some hrirsL
          shHrirsR := some hrirsR
          ambisonicBinauralDecoder := some ⟨hrirsL, hrirsR, bufferSize⟩
          peakLimiter := some ⟨samplingRate, 50, -1/2⟩ }

/-- The encoder-initialization stage of `ObrImpl::InitializeDsp`: when
there are loudspeaker/object input channels, size the encoder input buffer,
construct the encoder, and run `UpdateAmbisonicEncoder` (whose failure would
propagate); otherwise leave the state as is. -/
def initializeDspEncoderStage (T : RealFuns ℚ) (order bufferSize : ℕ)
    (s2 : ObrImpl) : ObrResult :=
  let indices := getAmbisonicEncoderSourceChannelIndices s2
  if indices.isEmpty then .ok s2
  else
    let s3 := { s2 with
      ambisonicEncoderInputShape := (indices.length, bufferSize)
      ambisonicEncoder := some (mkAmbisonicEncoder indices.length order) }
    updateAmbisonicEncoder T s3

/-- `ObrImpl::InitializeDsp`, faithful to the statement order of the source:
the two failed-precondition checks come first and return without mutating;
the order-range `CHECK`s abort; then `ResetDsp`, the new mix bed, the
encoder (only when there are loudspeaker/object channels) with its source
update, the rotator, and the HRIR stage. -/
def initializeDsp (T : RealFuns ℚ) (assetData : ℕ → Bool → WavData)
    (resample : WavData → ℤ → AudioBufferM) (s : ObrImpl) : ObrResult :=
  match s.audioElements with
  | [] => .err "No audio elements configured. Can't initialize DSP." s
  | e0 :: _ =>
    let order := e0.binauralFiltersAmbisonicOrder
    if ¬(order ≠ 0 ∧ kMinSupportedAmbisonicOrder ≤ order
        ∧ order ≤ kMaxSupportedAmbisonicOrder) then .fatal
    else if getNumberOfInputChannels s = 0 then
      .err "No input channels configured. Can't initialize DSP." s
    else
      let s1 := resetDsp s
      let newBed := List.replicate ((order + 1) * (order + 1))
        (List.replicate s.bufferSizePerChannel 0)
      let s2 := { s1 with ambisonicMixBed := newBed }
      match initializeDspEncoderStage T order s.bufferSizePerChannel s2 with
      | .fatal => .fatal
      | .err m s' => .err m s'
      | .ok s4 =>
        initializeDspHrirStage assetData resample order s.bufferSizePerChannel
          s.samplingRate { s4 with ambisonicRotator := some order }

/-- `ObrImpl::AddAudioElement`: reject a type different from the last
element's type; compute the new element's first channel index; reject when
the channel budget `kMaxSupportedNumInputChannels` would be exceeded (the
value of that constant is not in the sources — the spec calls it the
configured maximum — so it is the `maxInputChannels` parameter here); then
append and run `InitializeDsp`. -/
def addAudioElement (T : RealFuns ℚ) (assetData : ℕ → Bool → WavData)
    (resample : WavData → ℤ → AudioBufferM) (maxInputChannels : ℕ)
    (s : ObrImpl) (t : AudioElementType) : ObrResult :=
  let mismatch : Bool :=
    match s.audioElements.getLast? with
    | some last => last.type ≠ t
    | none => false
  if mismatch then .err "Only same-typed audio elements are supported." s
  else
    let first :=
      match s.audioElements.getLast? with
      | some last => last.firstChannelIndex + last.numberOfInputChannels
      | none => 0
    let cfg := (mkAudioElementConfig t).setFirstChannelIndex first
    if getNumberOfInputChannels s + cfg.numberOfInputChannels
        > maxInputChannels then
      .err "More input channels requested than supported." s
    else
      match initializeDsp T assetData resample
          { s with audioElements := s.audioElements ++ [cfg] } with
      | .ok s2 => .ok s2
      | .err m s2 => .err m s2
      | .fatal => .fatal

/-- `ObrImpl::SetHeadRotation(w, x, y, z)`: overwrite the stored world
rotation with the given components and return OK (`none` = no error). -/
def setHeadRotation (s : ObrImpl) (w x y z : ℚ) : ObrImpl × Option String :=
  ({ s with worldRotation := ⟨w, x, y, z⟩ }, none)

/-- The quaternion handed to the Ambisonic rotator by `ObrImpl::Process`:
the stored world rotation, used only when head tracking is enabled. -/
def processRotatorArg (s : ObrImpl) : Option WorldRotation :=
  if s.headTrackingEnabled then some s.worldRotation else none

/-- The Ambisonic mix bed immediately after the encode stage of
`ObrImpl::Process` (as a function of bed channel and frame): when there are
loudspeaker/object channels the encoder output overwrites the bed
(`encoded_buffer.noalias() = ...`), else the bed is cleared; then every
Ambisonic element's input channels are added in at bed channels
`0 … element channels - 1`.  No previous-block bed contents survive either
branch.  (Dereferencing a null encoder with nonempty indices would be
undefined behaviour in the source; every initialized state has the encoder
present in that case, and the claims below use Ambisonic-only states where
the branch is not taken.) -/
def encodeStageBed (s : ObrImpl) (input : ℕ → ℕ → ℚ) : ℕ → ℕ → ℚ :=
  let indices := getAmbisonicEncoderSourceChannelIndices s
  let base : ℕ → ℕ → ℚ :=
    if indices.isEmpty then fun _ _ => 0
    else
      match s.ambisonicEncoder with
      | some enc => processPlanarAudioData enc (fun i f => input (indices.getD i 0) f)
      | none => fun _ _ => 0
  s.audioElements.foldl
    (fun bed e =>
      if isAmbisonicsType e.type then
        fun ch f =>
          if ch < e.numberOfInputChannels then
            bed ch f + input (e.firstChannelIndex + ch) f
          else bed ch f
      else bed)
    base

/-! ## Concrete fixtures used by witnesses and counterexamples -/

/-- A concrete interpretation of the transcendental routines (all zero);
the claims proved below hold for every interpretation, so any concrete one
serves for witnesses. -/
def T0 : RealFuns ℚ := ⟨fun _ => 0, fun _ => 0, fun _ => 0, 0⟩

/-- A concrete asset table: each order `n` decodes to a silent
`(n+1)²`-channel WAV at 48 kHz. -/
def A0 : ℕ → Bool → WavData := fun n _ =>
  ⟨(n + 1) * (n + 1), 48000, List.replicate ((n + 1) * (n + 1)) 0⟩

/-- A concrete stand-in for the resampler output. -/
def R0 : WavData → ℤ → AudioBufferM := fun _ _ => ⟨0, 0, []⟩

/-- A renderer holding one third-order Ambisonic element. -/
def sEl3OA : ObrImpl :=
  { mkObrImpl 256 48000 with audioElements := [mkAudioElementConfig .k3OA] }

/-- A renderer holding two first-order Ambisonic elements (same type, so
both are accepted by `AddAudioElement`), at first channels 0 and 4. -/
def sTwo1OA : ObrImpl :=
  { mkObrImpl 1 48000 with
    audioElements := [mkAudioElementConfig .k1OA,
      (mkAudioElementConfig .k1OA).setFirstChannelIndex 4]
    ambisonicMixBed := List.replicate 4 (List.replicate 1 0) }

/-- An 8-channel input block whose only nonzero channel is channel 4. -/
def inputTwo1OA : ℕ → ℕ → ℚ := fun c _ => if c = 4 then 1 else 0

/-! ### Peak limiter lemmas and spec equivalence -/

theorem foldl_maxAbs_length (chs : List (List α)) (acc : List α)
    (h : ∀ ch ∈ chs, acc.length ≤ ch.length) :
    (chs.foldl (fun acc ch => acc.zipWith (fun m x => max m |x|) ch) acc).length
      = acc.length := by
  induction chs generalizing acc with
  | nil => rfl
  | cons ch chs ih =>
    have hlen : (acc.zipWith (fun m x => max m |x|) ch).length = acc.length := by
      rw [List.length_zipWith]
      exact Nat.min_eq_left (h ch (by simp))
    rw [List.foldl_cons, ih _ (fun c hc => by rw [hlen]; exact h c (by simp [hc]))]
    exact hlen

theorem foldl_maxAbs_getD (chs : List (List α)) (acc : List α) (i : ℕ)
    (hi : i < acc.length) (h : ∀ ch ∈ chs, acc.length ≤ ch.length) :
    (chs.foldl (fun acc ch => acc.zipWith (fun m x => max m |x|) ch) acc).getD i 0
      = chs.foldl (fun m ch => max m |ch.getD i 0|) (acc.getD i 0) := by
  induction chs generalizing acc with
  | nil => rfl
  | cons ch chs ih =>
    have hle : acc.length ≤ ch.length := h ch (by simp)
    have hlen : (acc.zipWith (fun m x => max m |x|) ch).length = acc.length := by
      rw [List.length_zipWith]; exact Nat.min_eq_left hle
    have hzip : (acc.zipWith (fun m x => max m |x|) ch).getD i 0
        = max (acc.getD i 0) |ch.getD i 0| := by
      have hi2 : i < (acc.zipWith (fun m x => max m |x|) ch).length := by
        rw [hlen]; exact hi
      rw [List.getD_eq_getElem _ _ hi2, List.getElem_zipWith,
        List.getD_eq_getElem _ _ hi, List.getD_eq_getElem _ _ (lt_of_lt_of_le hi hle)]
    rw [List.foldl_cons, ih _ (by rw [hlen]; exact hi)
      (fun c hc => by rw [hlen]; exact h c (by simp [hc])), hzip,
      List.foldl_cons]

theorem maxSamples_eq_spec (input : List (List α)) (F : ℕ)
    (h : ∀ ch ∈ input, ch.length = F) :
    maxSamples input F = (List.range F).map (specFrameMax input) := by
  have hlenhyp : ∀ ch ∈ input, (List.replicate F (0:α)).length ≤ ch.length := by
    intro ch hch; rw [List.length_replicate, h ch hch]
  apply List.ext_getElem
  · rw [maxSamples, foldl_maxAbs_length _ _ hlenhyp]
    simp
  · intro i h1 h2
    have hi : i < F := by simpa using h2
    have hgd : (maxSamples input F).getD i 0 = (maxSamples input F)[i] :=
      List.getD_eq_getElem _ _ h1
    rw [← hgd, maxSamples, foldl_maxAbs_getD _ _ _ (by simpa using hi) hlenhyp]
    rw [List.getElem_map, List.getElem_range]
    rw [List.getD_eq_getElem _ _ (by simpa using hi)]
    simp only [List.getElem_replicate]
    rw [specFrameMax, List.foldl_map]

theorem le_foldl_max (l : List α) (b : α) : b ≤ l.foldl max b := by
  induction l generalizing b with
  | nil => exact le_refl b
  | cons a l ih => exact le_trans (le_max_left b a) (ih (max b a))

theorem specFrameMax_nonneg (input : List (List α)) (i : ℕ) :
    0 ≤ specFrameMax input i := le_foldl_max _ _

theorem limiterEnvLoop_eq_scanl (c rtc : α) (e : α) (ms : List α)
    (h : ∀ m ∈ ms, 0 ≤ m) :
    limiterEnvLoop c rtc e ms
      = ((ms.scanl (specEnvStep c rtc) e).tail, ms.foldl (specEnvStep c rtc) e) := by
  induction ms generalizing e with
  | nil => simp [limiterEnvLoop, List.scanl_nil]
  | cons m ms ih =>
    have hm : 0 ≤ m := h m (by simp)
    have hg : getMaximumRequiredGain c m = if c < m then c / m else 1 := by
      rw [getMaximumRequiredGain, abs_of_nonneg hm]
    have hstep : (let g := getMaximumRequiredGain c m;
        if g < e then g else rtc * (e - g) + g) = specEnvStep c rtc e m := by
      rw [specEnvStep]; simp only [hg]
    rw [limiterEnvLoop, List.scanl_cons]
    simp only [hstep]
    rw [ih _ (fun x hx => h x (by simp [hx]))]
    have hhead : ms.scanl (specEnvStep c rtc) (specEnvStep c rtc e m)
        = specEnvStep c rtc e m
          :: (ms.scanl (specEnvStep c rtc) (specEnvStep c rtc e m)).tail := by
      cases ms with
      | nil => simp [List.scanl_nil]
      | cons x xs => rw [List.scanl_cons]; simp
    rw [List.singleton_append, List.tail_cons, List.foldl_cons]
    exact Prod.ext hhead.symm rfl


theorem limiter_process_spec (st : PeakLimiter α) (input : List (List α)) (F : ℕ)
    (hne : input ≠ []) (hlen : ∀ ch ∈ input, ch.length = F) :
    st.process input
      = (input.map
           (fun ch =>
             ch.zipWith (· * ·)
               (List.tail
                 (List.scanl (specEnvStep st.ceiling st.releaseTimeConstant) st.env
                   ((List.range F).map (specFrameMax input))))),
         PeakLimiter.mk st.ceiling st.releaseTimeConstant
           (List.foldl (specEnvStep st.ceiling st.releaseTimeConstant) st.env
             ((List.range F).map (specFrameMax input)))) := by
  obtain ⟨ch0, rest, rfl⟩ : ∃ ch0 rest, input = ch0 :: rest := by
    cases input with
    | nil => exact absurd rfl hne
    | cons a l => exact ⟨a, l, rfl⟩
  have hF : ((ch0 :: rest).headD []).length = F := hlen ch0 (by simp)
  have hnn : ∀ m ∈ (List.range F).map (specFrameMax (ch0 :: rest)), 0 ≤ m := by
    intro m hm
    obtain ⟨i, _, rfl⟩ := List.mem_map.mp hm
    exact specFrameMax_nonneg _ _
  rw [PeakLimiter.process, hF, maxSamples_eq_spec _ _ hlen,
    limiterEnvLoop_eq_scanl _ _ _ _ hnn]

theorem foldl_maxAbs_append (b1 : List (List α)) (b2 : List (List α))
    (acc1 acc2 : List α) (hC : b1.length = b2.length)
    (hacc1 : ∀ ch ∈ b1, acc1.length = ch.length)
    (hacc2 : ∀ ch ∈ b2, acc2.length = ch.length) :
    (b1.zipWith (· ++ ·) b2).foldl
        (fun acc ch => acc.zipWith (fun m x => max m |x|) ch) (acc1 ++ acc2)
      = b1.foldl (fun acc ch => acc.zipWith (fun m x => max m |x|) ch) acc1
        ++ b2.foldl (fun acc ch => acc.zipWith (fun m x => max m |x|) ch) acc2 := by
  induction b1 generalizing b2 acc1 acc2 with
  | nil =>
    have : b2 = [] := List.eq_nil_of_length_eq_zero (by simpa using hC.symm)
    subst this; rfl
  | cons ch1 b1 ih =>
    cases b2 with
    | nil => simp at hC
    | cons ch2 b2 =>
      have h1 : acc1.length = ch1.length := hacc1 ch1 (by simp)
      have hzip : (acc1 ++ acc2).zipWith (fun m x => max m |x|) (ch1 ++ ch2)
          = acc1.zipWith (fun m x => max m |x|) ch1
            ++ acc2.zipWith (fun m x => max m |x|) ch2 :=
        List.zipWith_append _ _ _ _ _ h1
      have hl1 : (acc1.zipWith (fun m x => max m |x|) ch1).length = acc1.length := by
        rw [List.length_zipWith, h1, Nat.min_self]
      have hl2 : (acc2.zipWith (fun m x => max m |x|) ch2).length = acc2.length := by
        rw [List.length_zipWith, hacc2 ch2 (by simp), Nat.min_self]
      simp only [List.zipWith_cons_cons, List.foldl_cons, hzip]
      exact ih b2 _ _ (by simpa using hC)
        (fun c hc => by rw [hl1]; exact hacc1 c (by simp [hc]))
        (fun c hc => by rw [hl2]; exact hacc2 c (by simp [hc]))

theorem maxSamples_append (b1 b2 : List (List α)) (F1 F2 : ℕ)
    (hC : b1.length = b2.length)
    (h1 : ∀ ch ∈ b1, ch.length = F1) (h2 : ∀ ch ∈ b2, ch.length = F2) :
    maxSamples (b1.zipWith (· ++ ·) b2) (F1 + F2)
      = maxSamples b1 F1 ++ maxSamples b2 F2 := by
  rw [maxSamples, maxSamples, maxSamples, List.replicate_add]
  exact foldl_maxAbs_append _ _ _ _ hC
    (fun ch hch => by rw [List.length_replicate, h1 ch hch])
    (fun ch hch => by rw [List.length_replicate, h2 ch hch])

theorem maxSamples_length (input : List (List α)) (F : ℕ)
    (h : ∀ ch ∈ input, ch.length = F) : (maxSamples input F).length = F := by
  rw [maxSamples, foldl_maxAbs_length _ _
    (fun ch hch => by rw [List.length_replicate, h ch hch])]
  simp

theorem limiterEnvLoop_length (c rtc e : α) (ms : List α) :
    (limiterEnvLoop c rtc e ms).1.length = ms.length := by
  induction ms generalizing e with
  | nil => rfl
  | cons m ms ih => simp [limiterEnvLoop, ih]

theorem limiterEnvLoop_append (c rtc : α) (e : α) (ms1 ms2 : List α) :
    limiterEnvLoop c rtc e (ms1 ++ ms2)
      = ((limiterEnvLoop c rtc e ms1).1
          ++ (limiterEnvLoop c rtc (limiterEnvLoop c rtc e ms1).2 ms2).1,
        (limiterEnvLoop c rtc (limiterEnvLoop c rtc e ms1).2 ms2).2) := by
  induction ms1 generalizing e with
  | nil => simp [limiterEnvLoop]
  | cons m ms1 ih => simp [limiterEnvLoop, ih]


theorem process_append (st : PeakLimiter α) (b1 b2 : List (List α)) (F1 F2 : ℕ)
    (hC : b1.length = b2.length)
    (h1 : ∀ ch ∈ b1, ch.length = F1) (h2 : ∀ ch ∈ b2, ch.length = F2) :
    st.process (b1.zipWith (· ++ ·) b2)
      = ((st.process b1).1.zipWith (· ++ ·) ((st.process b1).2.process b2).1,
        ((st.process b1).2.process b2).2) := by
  cases b1 with
  | nil =>
    have hb2 : b2 = [] := List.eq_nil_of_length_eq_zero (by simpa using hC.symm)
    subst hb2
    rfl
  | cons ch1 r1 =>
    cases b2 with
    | nil => simp at hC
    | cons ch2 r2 =>
      have hh1 : ch1.length = F1 := h1 ch1 (by simp)
      have hh2 : ch2.length = F2 := h2 ch2 (by simp)
      have hms : maxSamples ((ch1 :: r1).zipWith (· ++ ·) (ch2 :: r2)) (F1 + F2)
          = maxSamples (ch1 :: r1) F1 ++ maxSamples (ch2 :: r2) F2 :=
        maxSamples_append _ _ _ _ hC h1 h2
      have hmsl1 : (maxSamples (ch1 :: r1) F1).length = F1 := maxSamples_length _ _ h1
      have hmsl2 : (maxSamples (ch2 :: r2) F2).length = F2 := maxSamples_length _ _ h2
      -- unfold the joined process
      show PeakLimiter.process st ((ch1 ++ ch2) :: r1.zipWith (· ++ ·) r2) = _
      rw [PeakLimiter.process]
      have hhead : (((ch1 ++ ch2) :: r1.zipWith (· ++ ·) r2).headD []).length
          = F1 + F2 := by
        simp [hh1, hh2]
      rw [hhead]
      have hjoined : ((ch1 ++ ch2) :: r1.zipWith (· ++ ·) r2)
          = (ch1 :: r1).zipWith (· ++ ·) (ch2 :: r2) := rfl
      rw [hjoined, hms, limiterEnvLoop_append]
      rw [PeakLimiter.process, PeakLimiter.process]
      have hF1 : ((ch1 :: r1).headD []).length = F1 := by simpa using hh1
      have hF2 : ((ch2 :: r2).headD []).length = F2 := by simpa using hh2
      rw [hF1, hF2]
      refine Prod.ext ?_ rfl
      -- output components
      simp only
      set e0 := st.env
      set c := st.ceiling
      set rtc := st.releaseTimeConstant
      set ms1 := maxSamples (ch1 :: r1) F1 with hms1def
      set ms2 := maxSamples (ch2 :: r2) F2 with hms2def
      set env1 := limiterEnvLoop c rtc e0 ms1 with henv1def
      set env2 := limiterEnvLoop c rtc env1.2 ms2 with henv2def
      have henvl1 : env1.1.length = F1 := by
        rw [henv1def, limiterEnvLoop_length, hms1def, hmsl1]
      apply List.ext_getElem
      · simp [List.length_zipWith]
      · intro k hk1 hk2
        have hkC : k < (ch1 :: r1).length := by
          simp only [List.length_map, List.length_zipWith] at hk1
          omega
        have hkC2 : k < (ch2 :: r2).length := by rw [← hC]; exact hkC
        rw [List.getElem_map, List.getElem_zipWith, List.getElem_zipWith,
          List.getElem_map, List.getElem_map]
        have hcl1 : ((ch1 :: r1)[k]).length = F1 :=
          h1 _ (List.getElem_mem hkC)
        rw [List.zipWith_append _ _ _ _ _ (by rw [hcl1, henvl1])]

theorem joinBlocks_length (C : ℕ) (bs : List (List (List α)))
    (h : ∀ b ∈ bs, b.length = C) : (joinBlocks C bs).length = C := by
  induction bs with
  | nil => simp [joinBlocks]
  | cons b bs ih =>
    rw [joinBlocks, List.length_zipWith, h b (by simp),
      ih (fun x hx => h x (by simp [hx])), Nat.min_self]

theorem joinBlocks_channel_length (C : ℕ) (bs : List (List (List α)))
    (h : ∀ b ∈ bs, b.length = C ∧ ∃ F, ∀ ch ∈ b, ch.length = F) :
    ∃ F, ∀ ch ∈ joinBlocks C bs, ch.length = F := by
  induction bs with
  | nil =>
    exact ⟨0, fun ch hch => by rw [List.eq_of_mem_replicate hch]; rfl⟩
  | cons b bs ih =>
    obtain ⟨F1, hF1⟩ := (h b (by simp)).2
    obtain ⟨F2, hF2⟩ := ih (fun x hx => h x (by simp [hx]))
    refine ⟨F1 + F2, fun ch hch => ?_⟩
    rw [joinBlocks] at hch
    obtain ⟨k, hk, rfl⟩ := List.getElem_of_mem hch
    rw [List.getElem_zipWith, List.length_append]
    have hkb : k < b.length := by
      simp only [List.length_zipWith] at hk; omega
    have hkj : k < (joinBlocks C bs).length := by
      simp only [List.length_zipWith] at hk; omega
    rw [hF1 _ (List.getElem_mem hkb), hF2 _ (List.getElem_mem hkj)]

theorem foldl_zipWith_nil (f : α → α → α) (l : List (List α)) :
    l.foldl (fun acc ch => acc.zipWith f ch) [] = [] := by
  induction l with
  | nil => rfl
  | cons ch l ih => simpa using ih

theorem process_replicate_nil (st : PeakLimiter α) (C : ℕ) :
    st.process (List.replicate C ([] : List α)) = (List.replicate C [], st) := by
  rw [PeakLimiter.process]
  have hhead : ((List.replicate C ([] : List α)).headD []).length = 0 := by
    cases C with
    | zero => rfl
    | succ n => rfl
  rw [hhead]
  have hms : maxSamples (List.replicate C ([] : List α)) 0 = [] := by
    rw [maxSamples, List.replicate_zero]
    exact foldl_zipWith_nil _ _
  rw [hms, limiterEnvLoop]
  refine Prod.ext ?_ rfl
  simp only [List.map_replicate, List.zipWith_nil_right]

theorem limiter_blocks_split (st : PeakLimiter α) (bs : List (List (List α))) (C : ℕ)
    (h : ∀ b ∈ bs, b.length = C ∧ ∃ F, ∀ ch ∈ b, ch.length = F) :
    (processBlocks st bs).2 = (st.process (joinBlocks C bs)).2 ∧
      joinBlocks C (processBlocks st bs).1 = (st.process (joinBlocks C bs)).1 := by
  induction bs generalizing st with
  | nil =>
    rw [processBlocks, joinBlocks, process_replicate_nil]
    exact ⟨rfl, rfl⟩
  | cons b bs ih =>
    obtain ⟨hbC, F1, hbF⟩ := h b (by simp)
    have hrest : ∀ x ∈ bs, x.length = C ∧ ∃ F, ∀ ch ∈ x, ch.length = F :=
      fun x hx => h x (by simp [hx])
    obtain ⟨F2, hjF⟩ := joinBlocks_channel_length C bs hrest
    have hjC : (joinBlocks C bs).length = C :=
      joinBlocks_length C bs (fun x hx => (hrest x hx).1)
    have happ := process_append st b (joinBlocks C bs) F1 F2
      (by rw [hbC, hjC]) hbF hjF
    obtain ⟨ih2, ih1⟩ := ih (st.process b).2 hrest
    have hjoin : joinBlocks C (b :: bs) = b.zipWith (· ++ ·) (joinBlocks C bs) := rfl
    have hpb : processBlocks st (b :: bs)
        = ((st.process b).1 :: (processBlocks (st.process b).2 bs).1,
          (processBlocks (st.process b).2 bs).2) := rfl
    have hjoin2 : joinBlocks C ((st.process b).1 :: (processBlocks (st.process b).2 bs).1)
        = (st.process b).1.zipWith (· ++ ·)
            (joinBlocks C (processBlocks (st.process b).2 bs).1) := rfl
    constructor
    · rw [hpb, hjoin, happ]
      exact ih2
    · rw [hpb, hjoin, happ, hjoin2]
      simp only
      rw [ih1]


/-! ### Encoder lemmas -/

theorem kNeg120_pos : (0 : α) < kNegative120dbInAmplitude := by
  rw [kNegative120dbInAmplitude]; norm_num

theorem setSource_sources_self (T : RealFuns α) (enc : AmbisonicEncoder α)
    (c : ℕ) (g a e d : α) :
    (setSource T enc c g a e d).sources c = some ⟨g, a, e, d⟩ := by
  cases hsc : enc.sources c with
  | none =>
    simp only [setSource, hsc, Option.isNone_none, if_true, if_pos rfl,
      Option.getD_some]
    split_ifs with h1 h2
    · show (if c = c then some (⟨0, 0, 0, 0⟩ : SourceEntry α) else enc.sources c)
        = some ⟨g, a, e, d⟩
      rw [if_pos rfl, h1]
    · show (if c = c then some (⟨g, a, e, d⟩ : SourceEntry α) else enc.sources c)
        = some ⟨g, a, e, d⟩
      rw [if_pos rfl]
    · show (if c = c then some (⟨g, a, e, d⟩ : SourceEntry α) else enc.sources c)
        = some ⟨g, a, e, d⟩
      rw [if_pos rfl]
  | some s =>
    simp only [setSource, hsc, Option.isNone_some, Bool.false_eq_true,
      if_false, Option.getD_some]
    split_ifs with h1 h2
    · show enc.sources c = some ⟨g, a, e, d⟩
      rw [hsc, h1]
    · show (if c = c then some (⟨g, a, e, d⟩ : SourceEntry α) else enc.sources c)
        = some ⟨g, a, e, d⟩
      rw [if_pos rfl]
    · show (if c = c then some (⟨g, a, e, d⟩ : SourceEntry α) else enc.sources c)
        = some ⟨g, a, e, d⟩
      rw [if_pos rfl]

theorem setSource_matrix_self (T : RealFuns α) (enc : AmbisonicEncoder α)
    (c : ℕ) (g a e d : α) (hinv : encInvAt T enc c) :
    (setSource T enc c g a e d).encodingMatrix c
      = encodeColumn T enc.ambisonicOrder enc.numberOfOutputChannels
          ⟨g, a, e, d⟩ := by
  cases hsc : enc.sources c with
  | none =>
    have hmat : enc.encodingMatrix c
        = List.replicate enc.numberOfOutputChannels 0 := by
      rw [encInvAt, hsc] at hinv; exact hinv
    simp only [setSource, hsc, Option.isNone_none, if_true, if_pos rfl,
      Option.getD_some]
    split_ifs with h1 h2
    · show enc.encodingMatrix c = _
      injection h1 with hg ha he hd
      subst hg; subst ha; subst he; subst hd
      rw [hmat]
      simp only [encodeColumn]
      rw [if_pos]
      simp only [zero_div]
      exact kNeg120_pos
    · show (if c = c then List.replicate enc.numberOfOutputChannels 0
          else enc.encodingMatrix c) = _
      rw [if_pos rfl]
      simp only [encodeColumn]
      rw [if_pos h2]
    · show (if c = c then
            (getShCoeffs T a e enc.ambisonicOrder).map (· * (g / max d (1 / 2)))
          else enc.encodingMatrix c) = _
      rw [if_pos rfl]
      simp only [encodeColumn]
      rw [if_neg h2]
  | some s =>
    have hmat : enc.encodingMatrix c
        = encodeColumn T enc.ambisonicOrder enc.numberOfOutputChannels s := by
      rw [encInvAt, hsc] at hinv; exact hinv
    simp only [setSource, hsc, Option.isNone_some, Bool.false_eq_true,
      if_false, Option.getD_some]
    split_ifs with h1 h2
    · show enc.encodingMatrix c = _
      rw [hmat, h1]
    · show (if c = c then List.replicate enc.numberOfOutputChannels 0
          else enc.encodingMatrix c) = _
      rw [if_pos rfl]
      simp only [encodeColumn]
      rw [if_pos h2]
    · show (if c = c then
            (getShCoeffs T a e enc.ambisonicOrder).map (· * (g / max d (1 / 2)))
          else enc.encodingMatrix c) = _
      rw [if_pos rfl]
      simp only [encodeColumn]
      rw [if_neg h2]

theorem setSource_other (T : RealFuns α) (enc : AmbisonicEncoder α)
    (c c' : ℕ) (g a e d : α) (hne : c' ≠ c) :
    (setSource T enc c g a e d).sources c' = enc.sources c'
      ∧ (setSource T enc c g a e d).encodingMatrix c' = enc.encodingMatrix c' := by
  rw [setSource]
  by_cases hmiss : (enc.sources c).isNone
  · simp only [hmiss, if_true]
    split_ifs with h1 h2
    · refine ⟨?_, rfl⟩
      show (if c' = c then some (⟨0, 0, 0, 0⟩ : SourceEntry α)
          else enc.sources c') = enc.sources c'
      exact if_neg hne
    · refine ⟨?_, ?_⟩
      · show (if c' = c then some (⟨g, a, e, d⟩ : SourceEntry α)
            else enc.sources c') = enc.sources c'
        exact if_neg hne
      · show (if c' = c then List.replicate enc.numberOfOutputChannels 0
            else enc.encodingMatrix c') = enc.encodingMatrix c'
        exact if_neg hne
    · refine ⟨?_, ?_⟩
      · show (if c' = c then some (⟨g, a, e, d⟩ : SourceEntry α)
            else enc.sources c') = enc.sources c'
        exact if_neg hne
      · show (if c' = c then
              (getShCoeffs T a e enc.ambisonicOrder).map (· * (g / max d (1 / 2)))
            else enc.encodingMatrix c') = enc.encodingMatrix c'
        exact if_neg hne
  · simp only [if_neg hmiss]
    split_ifs with h1 h2
    · exact ⟨rfl, rfl⟩
    · refine ⟨?_, ?_⟩
      · show (if c' = c then some (⟨g, a, e, d⟩ : SourceEntry α)
            else enc.sources c') = enc.sources c'
        exact if_neg hne
      · show (if c' = c then List.replicate enc.numberOfOutputChannels 0
            else enc.encodingMatrix c') = enc.encodingMatrix c'
        exact if_neg hne
    · refine ⟨?_, ?_⟩
      · show (if c' = c then some (⟨g, a, e, d⟩ : SourceEntry α)
            else enc.sources c') = enc.sources c'
        exact if_neg hne
      · show (if c' = c then
              (getShCoeffs T a e enc.ambisonicOrder).map (· * (g / max d (1 / 2)))
            else enc.encodingMatrix c') = enc.encodingMatrix c'
        exact if_neg hne

theorem setSource_dims (T : RealFuns α) (enc : AmbisonicEncoder α)
    (c : ℕ) (g a e d : α) :
    (setSource T enc c g a e d).ambisonicOrder = enc.ambisonicOrder
      ∧ (setSource T enc c g a e d).numberOfInputChannels
        = enc.numberOfInputChannels := by
  simp only [setSource]
  split_ifs <;> exact ⟨rfl, rfl⟩

theorem mk_encInvAt (T : RealFuns α) (nIn order c : ℕ) :
    encInvAt T (mkAmbisonicEncoder nIn order : AmbisonicEncoder α) c := by
  rw [encInvAt]
  rfl

theorem setSource_encInvAt (T : RealFuns α) (enc : AmbisonicEncoder α)
    (c c' : ℕ) (g a e d : α) (hinv : encInvAt T enc c') :
    encInvAt T (setSource T enc c g a e d) c' := by
  have hdims := setSource_dims T enc c g a e d
  have hout : (setSource T enc c g a e d).numberOfOutputChannels
      = enc.numberOfOutputChannels := by
    rw [AmbisonicEncoder.numberOfOutputChannels,
      AmbisonicEncoder.numberOfOutputChannels, hdims.1]
  by_cases hc : c' = c
  · subst hc
    rw [encInvAt, setSource_sources_self, setSource_matrix_self T enc c' g a e d hinv,
      hdims.1, hout]
  · obtain ⟨hsrc, hmat⟩ := setSource_other T enc c c' g a e d hc
    rw [encInvAt, hsrc, hmat, hdims.1, hout]
    rw [encInvAt] at hinv
    exact hinv

theorem removeSource_encInvAt (T : RealFuns α) (enc : AmbisonicEncoder α)
    (c c' : ℕ) (hinv : encInvAt T enc c') :
    encInvAt T (removeSource enc c) c' := by
  by_cases hc : c' = c
  · subst hc
    rw [encInvAt]
    have hsrc : (removeSource enc c').sources c' = none := if_pos rfl
    rw [hsrc]
    exact if_pos rfl
  · have hsrc : (removeSource enc c).sources c' = enc.sources c' := by
      show (if c' = c then none else enc.sources c') = enc.sources c'
      exact if_neg hc
    have hmat : (removeSource enc c).encodingMatrix c' = enc.encodingMatrix c' := by
      show (if c' = c then List.replicate enc.numberOfOutputChannels 0
          else enc.encodingMatrix c') = enc.encodingMatrix c'
      exact if_neg hc
    rw [encInvAt, hsrc, hmat]
    rw [encInvAt] at hinv
    exact hinv

theorem setSource_idem (T : RealFuns α) (enc : AmbisonicEncoder α)
    (c : ℕ) (g a e d : α) :
    setSource T (setSource T enc c g a e d) c g a e d
      = setSource T enc c g a e d := by
  have h := setSource_sources_self T enc c g a e d
  conv_lhs => rw [setSource]
  simp only [h, Option.isNone_some, Bool.false_eq_true, if_false,
    Option.getD_some, if_pos rfl, ite_true]

theorem getShCoeffs_succ (T : RealFuns α) (az el : α) (n : ℕ) :
    getShCoeffs T az el (n + 1)
      = getShCoeffs T az el n
        ++ (List.range (2 * (n + 1) + 1)).map (fun (k : ℕ) =>
            shEntry T (az * T.radiansFromDegrees) (el * T.radiansFromDegrees)
              (n + 1) ((k : ℤ) - (n + 1))) := by
  simp only [getShCoeffs]
  rw [List.range_succ, List.flatMap_append]
  simp

theorem getShCoeffs_length (T : RealFuns α) (az el : α) (order : ℕ) :
    (getShCoeffs T az el order).length = (order + 1) * (order + 1) := by
  induction order with
  | zero => rfl
  | succ n ih =>
    rw [getShCoeffs_succ, List.length_append, ih, List.length_map,
      List.length_range]
    ring

theorem getShCoeffs_getD (T : RealFuns α) (az el : α) (order d k : ℕ)
    (hd : d ≤ order) (hk : k < 2 * d + 1) :
    (getShCoeffs T az el order).getD (d * d + k) 0
      = shEntry T (az * T.radiansFromDegrees) (el * T.radiansFromDegrees)
          d ((k : ℤ) - d) := by
  induction order with
  | zero =>
    have hd0 : d = 0 := Nat.le_zero.mp hd
    subst hd0
    have hk0 : k = 0 := by omega
    subst hk0
    rfl
  | succ n ih =>
    rcases Nat.lt_or_ge d (n + 1) with hlt | hge
    · have hdn : d ≤ n := Nat.lt_succ_iff.mp hlt
      have hidx : d * d + k < (getShCoeffs T az el n).length := by
        rw [getShCoeffs_length]
        have : d * d + k < (d + 1) * (d + 1) := by nlinarith
        have hsq : (d + 1) * (d + 1) ≤ (n + 1) * (n + 1) := by nlinarith
        omega
      rw [getShCoeffs_succ, List.getD_append _ _ _ _ hidx]
      exact ih hdn
    · have hdeq : d = n + 1 := le_antisymm hd hge
      subst hdeq
      rw [getShCoeffs_succ]
      have hlen : (getShCoeffs T az el n).length = (n + 1) * (n + 1) :=
        getShCoeffs_length T az el n
      have hidx : (n + 1) * (n + 1) + k
          = (getShCoeffs T az el n).length + k := by rw [hlen]
      rw [hidx, List.getD_append_right _ _ _ _ (Nat.le_add_right _ _)]
      simp only [Nat.add_sub_cancel_left]
      have hkm : k < ((List.range (2 * (n + 1) + 1)).map (fun (k : ℕ) =>
          shEntry T (az * T.radiansFromDegrees) (el * T.radiansFromDegrees)
            (n + 1) ((k : ℤ) - (n + 1)))).length := by
        rw [List.length_map, List.length_range]; exact hk
      rw [List.getD_eq_getElem _ _ hkm, List.getElem_map, List.getElem_range]
      push_cast
      ring_nf

theorem setSource_matrix_closed_form (T : RealFuns α) (enc : AmbisonicEncoder α)
    (c : ℕ) (gain az el dist : α) (hinv : encInvAt T enc c) :
    (setSource T enc c gain az el dist).encodingMatrix c
      = (if gain / max dist (1 / 2) < kNegative120dbInAmplitude
          then List.replicate enc.numberOfOutputChannels 0
          else (getShCoeffs T az el enc.ambisonicOrder).map
            (· * (gain / max dist (1 / 2)))) := by
  rw [setSource_matrix_self T enc c gain az el dist hinv, encodeColumn]

theorem setSource_matrix_acn_entry (T : RealFuns α) (enc : AmbisonicEncoder α)
    (c : ℕ) (gain az el dist : α) (hinv : encInvAt T enc c)
    (ℓ : ℕ) (m : ℤ) (hℓ : ℓ ≤ enc.ambisonicOrder) (hm : m.natAbs ≤ ℓ)
    (hloud : ¬gain / max dist (1 / 2) < kNegative120dbInAmplitude) :
    ((setSource T enc c gain az el dist).encodingMatrix c).getD
        (acnSequence ℓ m).toNat 0
      = shEntry T (az * T.radiansFromDegrees) (el * T.radiansFromDegrees) ℓ m
          * (gain / max dist (1 / 2)) := by
  rw [setSource_matrix_closed_form T enc c gain az el dist hinv, if_neg hloud]
  have habs : -(ℓ : ℤ) ≤ m ∧ m ≤ (ℓ : ℤ) := by
    have h1 : ((m.natAbs : ℤ)) ≤ (ℓ : ℤ) := Int.ofNat_le.mpr hm
    rw [← Int.abs_eq_natAbs] at h1
    exact abs_le.mp h1
  have hk0 : 0 ≤ m + (ℓ : ℤ) := by omega
  set k : ℕ := (m + (ℓ : ℤ)).toNat with hkdef
  have hkc : (k : ℤ) = m + ℓ := Int.toNat_of_nonneg hk0
  have hk : k < 2 * ℓ + 1 := by omega
  have hacn : (acnSequence ℓ m).toNat = ℓ * ℓ + k := by
    have hcast : acnSequence ℓ m = ((ℓ * ℓ + k : ℕ) : ℤ) := by
      rw [acnSequence]; push_cast; linarith
    rw [hcast, Int.toNat_natCast]
  have hidx : ℓ * ℓ + k < (getShCoeffs T az el enc.ambisonicOrder).length := by
    rw [getShCoeffs_length]
    have h1 : ℓ * ℓ + k < (ℓ + 1) * (ℓ + 1) := by nlinarith [hk]
    have h2 : (ℓ + 1) * (ℓ + 1) ≤ (enc.ambisonicOrder + 1) * (enc.ambisonicOrder + 1) :=
      Nat.mul_le_mul (by omega) (by omega)
    omega
  have hidx2 : ℓ * ℓ + k
      < ((getShCoeffs T az el enc.ambisonicOrder).map
          (· * (gain / max dist (1 / 2)))).length := by
    rw [List.length_map]; exact hidx
  rw [hacn, List.getD_eq_getElem _ _ hidx2, List.getElem_map,
    ← List.getD_eq_getElem _ _ hidx,
    getShCoeffs_getD T az el enc.ambisonicOrder ℓ k hℓ hk]
  have hme : (k : ℤ) - ℓ = m := by omega
  rw [hme]


/-! ### Renderer lemmas -/

theorem mkAudioElementConfig_channels_pos (t : AudioElementType) :
    1 ≤ (mkAudioElementConfig t).numberOfInputChannels := by
  cases t <;> decide

theorem updateAmbisonicEncoder_ok_of_some (T : RealFuns ℚ) (s : ObrImpl)
    (enc : AmbisonicEncoder ℚ) (h : s.ambisonicEncoder = some enc) :
    ∀ m s', updateAmbisonicEncoder T s ≠ ObrResult.err m s' := by
  intro m s'
  rw [updateAmbisonicEncoder, h]
  simp only
  intro hcontra
  exact ObrResult.noConfusion hcontra

theorem initializeDspHrirStage_ne_err (assetData : ℕ → Bool → WavData)
    (resample : WavData → ℤ → AudioBufferM) (order bufferSize : ℕ)
    (samplingRate : ℤ) (s5 : ObrImpl) :
    ∀ m s', initializeDspHrirStage assetData resample order bufferSize
      samplingRate s5 ≠ ObrResult.err m s' := by
  intro m s' hcontra
  rw [initializeDspHrirStage] at hcontra
  split at hcontra
  · exact ObrResult.noConfusion hcontra
  · split at hcontra
    · exact ObrResult.noConfusion hcontra
    · split_ifs at hcontra

theorem initializeDspEncoderStage_ok (T : RealFuns ℚ) (order bufferSize : ℕ)
    (s2 : ObrImpl) :
    ∃ s4, initializeDspEncoderStage T order bufferSize s2 = ObrResult.ok s4 := by
  rw [initializeDspEncoderStage]
  by_cases hemp : (getAmbisonicEncoderSourceChannelIndices s2).isEmpty
  · rw [if_pos hemp]; exact ⟨s2, rfl⟩
  · simp only [if_neg hemp, updateAmbisonicEncoder]
    exact ⟨_, rfl⟩

theorem initializeDsp_ne_err (T : RealFuns ℚ) (assetData : ℕ → Bool → WavData)
    (resample : WavData → ℤ → AudioBufferM) (s : ObrImpl)
    (hne : s.audioElements ≠ [])
    (hch : getNumberOfInputChannels s ≠ 0) :
    ∀ m s', initializeDsp T assetData resample s ≠ ObrResult.err m s' := by
  intro m s' hcontra
  rw [initializeDsp] at hcontra
  cases helems : s.audioElements with
  | nil => exact hne helems
  | cons e0 rest =>
    rw [helems] at hcontra
    simp only at hcontra
    by_cases h1 : ¬(e0.binauralFiltersAmbisonicOrder ≠ 0
        ∧ kMinSupportedAmbisonicOrder ≤ e0.binauralFiltersAmbisonicOrder
        ∧ e0.binauralFiltersAmbisonicOrder ≤ kMaxSupportedAmbisonicOrder)
    · rw [if_pos h1] at hcontra
      exact ObrResult.noConfusion hcontra
    · rw [if_neg h1] at hcontra
      by_cases h2 : getNumberOfInputChannels s = 0
      · exact hch h2
      · rw [if_neg h2] at hcontra
        split at hcontra
        · exact ObrResult.noConfusion hcontra
        · rename_i m1 s1 hsplit
          obtain ⟨s4, h4⟩ := initializeDspEncoderStage_ok T _ _ _
          rw [h4] at hsplit
          exact ObrResult.noConfusion hsplit
        · exact initializeDspHrirStage_ne_err _ _ _ _ _ _ m s' hcontra

theorem setFirstChannelIndex_channels (cfg : AudioElementConfig) (first : ℕ) :
    (cfg.setFirstChannelIndex first).numberOfInputChannels
      = cfg.numberOfInputChannels := rfl

theorem addAudioElement_err_unchanged (T : RealFuns ℚ)
    (assetData : ℕ → Bool → WavData) (resample : WavData → ℤ → AudioBufferM)
    (maxInputChannels : ℕ) (s : ObrImpl) (t : AudioElementType)
    (m : String) (s' : ObrImpl)
    (h : addAudioElement T assetData resample maxInputChannels s t
      = ObrResult.err m s') : s' = s := by
  rw [addAudioElement] at h
  simp only at h
  split_ifs at h with hmis hbud
  · injection h with h1 h2
    exact h2.symm
  · injection h with h1 h2
    exact h2.symm
  · split at h
    · exact ObrResult.noConfusion h
    · rename_i m2 s2 hsplit
      refine absurd hsplit (initializeDsp_ne_err T assetData resample _ ?_ ?_ m2 s2)
      · simp only
        intro hcontra
        exact List.cons_ne_nil _ _ (List.append_eq_nil.mp hcontra).2
      · show getNumberOfInputChannels
          { s with audioElements := s.audioElements
              ++ [(mkAudioElementConfig t).setFirstChannelIndex _] } ≠ 0
        rw [getNumberOfInputChannels]
        simp only [List.map_append, List.sum_append, List.map_cons,
          List.map_nil, List.sum_cons, List.sum_nil,
          setFirstChannelIndex_channels]
        have := mkAudioElementConfig_channels_pos t
        omega
    · exact ObrResult.noConfusion h

/-- Well-formedness of the compiled-in HRIR assets relative to the renderer
sampling rate: every asset decodes at the renderer rate with a valid
(perfect-square) channel count, and the left/right banks of each order have
matching shapes. -/
def assetsWellFormed (assetData : ℕ → Bool → WavData) (samplingRate : ℤ) : Prop :=
  ∀ n side, (assetData n side).sampleRate = samplingRate
    ∧ isValidAmbisonicOrderChannels (assetData n side).numChannels = true
    ∧ (assetData n true).numChannels = (assetData n false).numChannels
    ∧ (assetData n true).interleavedSamples.length
      = (assetData n false).interleavedSamples.length

theorem binauralFiltersGetFile_key (assetData : ℕ → Bool → WavData)
    (order : ℕ) (h1 : 1 ≤ order) (h7 : order ≤ 7) :
    binauralFiltersGetFile assetData (toString order ++ "OA_L")
        = some (assetData order true)
      ∧ binauralFiltersGetFile assetData (toString order ++ "OA_R")
        = some (assetData order false) := by
  interval_cases order <;> exact ⟨rfl, rfl⟩

theorem createShHrirsFromAssets_ok (assetData : ℕ → Bool → WavData)
    (resample : WavData → ℤ → AudioBufferM) (samplingRate : ℤ)
    (hwf : assetsWellFormed assetData samplingRate)
    (order : ℕ) (h1 : 1 ≤ order) (h7 : order ≤ 7) :
    createShHrirsFromAssets assetData resample (toString order ++ "OA_L")
        samplingRate
      = HrirLoadResult.ok (fillAudioBufferFromWav (assetData order true))
    ∧ createShHrirsFromAssets assetData resample (toString order ++ "OA_R")
        samplingRate
      = HrirLoadResult.ok (fillAudioBufferFromWav (assetData order false)) := by
  obtain ⟨hL, hR⟩ := binauralFiltersGetFile_key assetData order h1 h7
  constructor
  · rw [createShHrirsFromAssets, hL]
    simp only [createShHrirsFromWav]
    rw [if_neg (by simp [(hwf order true).2.1]),
      if_neg (by simp [(hwf order true).1])]
  · rw [createShHrirsFromAssets, hR]
    simp only [createShHrirsFromWav]
    rw [if_neg (by simp [(hwf order false).2.1]),
      if_neg (by simp [(hwf order false).1])]

theorem fillAudioBufferFromWav_shape (wav : WavData) :
    (fillAudioBufferFromWav wav).numChannels = wav.numChannels
      ∧ (fillAudioBufferFromWav wav).numFrames
        = wav.interleavedSamples.length / wav.numChannels := ⟨rfl, rfl⟩

theorem initializeDspHrirStage_ok (assetData : ℕ → Bool → WavData)
    (resample : WavData → ℤ → AudioBufferM) (order bufferSize : ℕ)
    (samplingRate : ℤ) (s5 : ObrImpl)
    (hwf : assetsWellFormed assetData samplingRate)
    (h1 : 1 ≤ order) (h7 : order ≤ 7) :
    ∃ s6, initializeDspHrirStage assetData resample order bufferSize
      samplingRate s5 = ObrResult.ok s6 := by
  obtain ⟨hL, hR⟩ :=
    createShHrirsFromAssets_ok assetData resample samplingRate hwf order h1 h7
  rw [initializeDspHrirStage, hL, hR]
  simp only
  have hch : (fillAudioBufferFromWav (assetData order true)).numChannels
      = (fillAudioBufferFromWav (assetData order false)).numChannels :=
    (hwf order true).2.2.1
  have hfr : (fillAudioBufferFromWav (assetData order true)).numFrames
      = (fillAudioBufferFromWav (assetData order false)).numFrames := by
    show (assetData order true).interleavedSamples.length
        / (assetData order true).numChannels
      = (assetData order false).interleavedSamples.length
        / (assetData order false).numChannels
    rw [(hwf order true).2.2.1, (hwf order true).2.2.2]
  rw [if_neg (by simp [hch, hfr])]
  exact ⟨_, rfl⟩

theorem initializeDsp_ok (T : RealFuns ℚ) (assetData : ℕ → Bool → WavData)
    (resample : WavData → ℤ → AudioBufferM) (s : ObrImpl)
    (hwf : assetsWellFormed assetData s.samplingRate)
    (hne : s.audioElements ≠ [])
    (hch : getNumberOfInputChannels s ≠ 0)
    (hord : ∀ e ∈ s.audioElements, 1 ≤ e.binauralFiltersAmbisonicOrder
      ∧ e.binauralFiltersAmbisonicOrder ≤ 7) :
    ∃ s', initializeDsp T assetData resample s = ObrResult.ok s' := by
  rw [initializeDsp]
  cases helems : s.audioElements with
  | nil => exact absurd helems hne
  | cons e0 rest =>
    simp only
    obtain ⟨ho1, ho7⟩ := hord e0 (by rw [helems]; exact List.mem_cons_self _ _)
    rw [if_neg (not_not_intro
      ⟨by omega,
       by rw [kMinSupportedAmbisonicOrder]; omega,
       by rw [kMaxSupportedAmbisonicOrder]; omega⟩)]
    rw [if_neg hch]
    obtain ⟨s4, h4⟩ := initializeDspEncoderStage_ok T
      e0.binauralFiltersAmbisonicOrder s.bufferSizePerChannel _
    rw [h4]
    simp only
    exact initializeDspHrirStage_ok assetData resample _ _ _ _ hwf ho1 ho7

theorem mkAudioElementConfig_order_bounds (t : AudioElementType) :
    1 ≤ (mkAudioElementConfig t).binauralFiltersAmbisonicOrder
      ∧ (mkAudioElementConfig t).binauralFiltersAmbisonicOrder ≤ 7 := by
  cases t <;> decide

theorem addAudioElement_err_iff (T : RealFuns ℚ)
    (assetData : ℕ → Bool → WavData) (resample : WavData → ℤ → AudioBufferM)
    (maxInputChannels : ℕ) (s : ObrImpl) (t : AudioElementType) :
    (∃ m s', addAudioElement T assetData resample maxInputChannels s t
        = ObrResult.err m s')
      ↔ ((∃ last, s.audioElements.getLast? = some last ∧ last.type ≠ t)
          ∨ maxInputChannels < getNumberOfInputChannels s
              + (mkAudioElementConfig t).numberOfInputChannels) := by
  constructor
  · rintro ⟨m, s', h⟩
    rw [addAudioElement] at h
    simp only at h
    split_ifs at h with hmis hbud
    · left
      cases hlast : s.audioElements.getLast? with
      | none => rw [hlast] at hmis; exact absurd hmis (by simp)
      | some last =>
        rw [hlast] at hmis
        simp only [decide_eq_true_eq] at hmis
        exact ⟨last, rfl, hmis⟩
    · right
      rw [setFirstChannelIndex_channels] at hbud
      omega
    · split at h
      · exact absurd h (fun hc => ObrResult.noConfusion hc)
      · rename_i m2 s2 hsplit
        refine absurd hsplit (initializeDsp_ne_err T assetData resample _ ?_ ?_ m2 s2)
        · simp only
          intro hcontra
          exact List.cons_ne_nil _ _ (List.append_eq_nil.mp hcontra).2
        · show getNumberOfInputChannels
            { s with audioElements := s.audioElements
                ++ [(mkAudioElementConfig t).setFirstChannelIndex _] } ≠ 0
          rw [getNumberOfInputChannels]
          simp only [List.map_append, List.sum_append, List.map_cons,
            List.map_nil, List.sum_cons, List.sum_nil,
            setFirstChannelIndex_channels]
          have := mkAudioElementConfig_channels_pos t
          omega
      · exact absurd h (fun hc => ObrResult.noConfusion hc)
  · intro hcase
    rw [addAudioElement]
    simp only
    by_cases hmis : (match s.audioElements.getLast? with
        | some last => decide (last.type ≠ t)
        | none => false) = true
    · rw [if_pos hmis]
      exact ⟨_, _, rfl⟩
    · rw [if_neg hmis]
      have hbud : maxInputChannels < getNumberOfInputChannels s
          + (mkAudioElementConfig t).numberOfInputChannels := by
        rcases hcase with ⟨last, hlast, hne⟩ | hbud
        · exact absurd (by rw [hlast]; simpa using hne) hmis
        · exact hbud
      rw [if_pos (by rw [setFirstChannelIndex_channels]; omega)]
      exact ⟨_, _, rfl⟩

theorem addAudioElement_ok (T : RealFuns ℚ)
    (assetData : ℕ → Bool → WavData) (resample : WavData → ℤ → AudioBufferM)
    (maxInputChannels : ℕ) (s : ObrImpl) (t : AudioElementType)
    (hwf : assetsWellFormed assetData s.samplingRate)
    (hord : ∀ e ∈ s.audioElements, 1 ≤ e.binauralFiltersAmbisonicOrder
      ∧ e.binauralFiltersAmbisonicOrder ≤ 7)
    (hnomis : ∀ last, s.audioElements.getLast? = some last → last.type = t)
    (hnobud : getNumberOfInputChannels s
      + (mkAudioElementConfig t).numberOfInputChannels ≤ maxInputChannels) :
    ∃ s2, addAudioElement T assetData resample maxInputChannels s t
      = ObrResult.ok s2 := by
  rw [addAudioElement]
  simp only
  have hmis : (match s.audioElements.getLast? with
      | some last => decide (last.type ≠ t)
      | none => false) = false := by
    cases hlast : s.audioElements.getLast? with
    | none => rfl
    | some last => simpa using hnomis last hlast
  rw [if_neg (by rw [hmis]; simp)]
  rw [if_neg (by rw [setFirstChannelIndex_channels]; omega)]
  have hres := initializeDsp_ok T assetData resample
    { s with audioElements := s.audioElements
        ++ [(mkAudioElementConfig t).setFirstChannelIndex
            (match s.audioElements.getLast? with
              | some last => last.firstChannelIndex + last.numberOfInputChannels
              | none => 0)] }
    hwf
    (by simp only
        intro hcontra
        exact List.cons_ne_nil _ _ (List.append_eq_nil.mp hcontra).2)
    (by show getNumberOfInputChannels
          { s with audioElements := s.audioElements
              ++ [(mkAudioElementConfig t).setFirstChannelIndex _] } ≠ 0
        rw [getNumberOfInputChannels]
        simp only [List.map_append, List.sum_append, List.map_cons,
          List.map_nil, List.sum_cons, List.sum_nil,
          setFirstChannelIndex_channels]
        have := mkAudioElementConfig_channels_pos t
        omega)
    (by intro e he
        simp only [List.mem_append, List.mem_cons, List.not_mem_nil,
          or_false] at he
        rcases he with he | he
        · exact hord e he
        · subst he
          exact mkAudioElementConfig_order_bounds t)
  obtain ⟨s2, h2⟩ := hres
  rw [h2]
  exact ⟨s2, rfl⟩

theorem flatMap_indices_nil (elements : List AudioElementConfig)
    (hamb : ∀ e ∈ elements, isAmbisonicsType e.type) :
    elements.flatMap (fun e =>
      if isLoudspeakerLayoutType e.type ∨ isObjectType e.type then
        (List.range e.numberOfInputChannels).map (fun i => e.firstChannelIndex + i)
      else []) = [] := by
  induction elements with
  | nil => rfl
  | cons e rest ih =>
    rw [List.flatMap_cons, ih (fun x hx => hamb x (by simp [hx]))]
    have he := hamb e (by simp)
    have hnotls : ¬(isLoudspeakerLayoutType e.type ∨ isObjectType e.type) := by
      rw [isLoudspeakerLayoutType]
      cases htype : e.type <;> simp_all [isAmbisonicsType, isObjectType]
    rw [if_neg hnotls, List.nil_append]

theorem allAmbisonic_indices_nil (s : ObrImpl)
    (hamb : ∀ e ∈ s.audioElements, isAmbisonicsType e.type) :
    getAmbisonicEncoderSourceChannelIndices s = [] :=
  flatMap_indices_nil s.audioElements hamb

theorem encodeStage_foldl_ambisonic (input : ℕ → ℕ → ℚ)
    (elements : List AudioElementConfig)
    (hamb : ∀ e ∈ elements, isAmbisonicsType e.type) :
    ∀ (base : ℕ → ℕ → ℚ) (ch f : ℕ),
      (elements.foldl
        (fun bed e =>
          if isAmbisonicsType e.type then
            fun ch f =>
              if ch < e.numberOfInputChannels then
                bed ch f + input (e.firstChannelIndex + ch) f
              else bed ch f
          else bed)
        base) ch f
      = base ch f
        + ((elements.filter (fun e => ch < e.numberOfInputChannels)).map
            (fun e => input (e.firstChannelIndex + ch) f)).sum := by
  induction elements with
  | nil => intro base ch f; simp
  | cons e rest ih =>
    intro base ch f
    have he := hamb e (by simp)
    rw [List.foldl_cons, if_pos he,
      ih (fun x hx => hamb x (by simp [hx]))]
    by_cases hch : ch < e.numberOfInputChannels
    · rw [List.filter_cons_of_pos (by simpa using hch), List.map_cons,
        List.sum_cons, if_pos hch]
      ring
    · rw [List.filter_cons_of_neg (by simpa using hch), if_neg hch]

theorem encodeStageBed_allAmbisonic (s : ObrImpl) (input : ℕ → ℕ → ℚ)
    (hamb : ∀ e ∈ s.audioElements, isAmbisonicsType e.type) (ch f : ℕ) :
    encodeStageBed s input ch f
      = ((s.audioElements.filter (fun e => ch < e.numberOfInputChannels)).map
          (fun e => input (e.firstChannelIndex + ch) f)).sum := by
  rw [encodeStageBed]
  simp only [allAmbisonic_indices_nil s hamb, List.isEmpty_nil, if_true]
  rw [encodeStage_foldl_ambisonic input s.audioElements hamb]
  simp

theorem isValid_square (n : ℕ) :
    isValidAmbisonicOrderChannels ((n + 1) * (n + 1)) = true := by
  rw [isValidAmbisonicOrderChannels]
  simp only [Bool.and_eq_true, decide_eq_true_eq, ne_eq]
  refine ⟨by positivity, ?_⟩
  rw [List.any_eq_true]
  refine ⟨n + 1, List.mem_range.mpr ?_, by simp⟩
  nlinarith

theorem A0_wellFormed : assetsWellFormed A0 48000 := by
  intro n side
  refine ⟨rfl, isValid_square n, rfl, rfl⟩

/-! ## Claim theorems -/

section ClaimTheorems

attribute [local semireducible] Rat.mul Rat.add Rat.sub Rat.inv

/-- C10: `SetHeadRotation(w, x, y, z)` succeeds for every argument tuple,
including non-unit and all-zero quaternions: it always returns an OK status,
performs no validation or normalization, and its only effect is to replace
the stored world-rotation quaternion with exactly the given components; the
stored quaternion is what `Process` hands to the rotator when head tracking
is enabled. -/
theorem claim_C10 (s : ObrImpl) (w x y z : ℚ) :
    (setHeadRotation s w x y z).2 = none
    ∧ (setHeadRotation s w x y z).1 = { s with worldRotation := ⟨w, x, y, z⟩ }
    ∧ processRotatorArg (setHeadRotation s w x y z).1
      = (if s.headTrackingEnabled then some ⟨w, x, y, z⟩ else none) :=
  ⟨rfl, rfl, rfl⟩

/-- C2: whenever `AddAudioElement` returns a typed error — for any renderer
state, element type, channel budget, asset table, resampler and
transcendental interpretation — the renderer state carried at the error
return is exactly the pre-call state: the element list, encoder, rotator,
HRIR banks, decoder, limiter and mix bed are all unchanged.  (The two error
returns precede every mutation, and the DSP re-initialization triggered
after the append can abort but never *returns* an error.) -/
theorem claim_C2 (T : RealFuns ℚ) (assetData : ℕ → Bool → WavData)
    (resample : WavData → ℤ → AudioBufferM) (maxInputChannels : ℕ)
    (s : ObrImpl) (t : AudioElementType) (m : String) (s' : ObrImpl)
    (h : addAudioElement T assetData resample maxInputChannels s t
      = ObrResult.err m s') : s' = s :=
  addAudioElement_err_unchanged T assetData resample maxInputChannels s t m s' h

theorem claim_C2_witness :
    addAudioElement T0 A0 R0 64 sEl3OA AudioElementType.kObjectMono
      = ObrResult.err "Only same-typed audio elements are supported." sEl3OA
    ∧ sEl3OA = sEl3OA :=
  ⟨rfl, claim_C2 T0 A0 R0 64 sEl3OA AudioElementType.kObjectMono _ sEl3OA rfl⟩

/-- C8 counterexample: the claim asserts that adding two Ambisonic elements
of different orders is accepted; in fact each Ambisonic order is a distinct
`AudioElementType`, the same-type check compares the enum values, and adding
a first-order element to a renderer holding a third-order element returns
the same-typed-elements error. -/
theorem claim_C8_counterexample :
    isAmbisonicsType .k3OA = true ∧ isAmbisonicsType .k1OA = true
    ∧ getAmbisonicOrder .k3OA ≠ getAmbisonicOrder .k1OA
    ∧ addAudioElement T0 A0 R0 64 sEl3OA .k1OA
      = ObrResult.err "Only same-typed audio elements are supported." sEl3OA :=
  ⟨rfl, rfl, by decide, rfl⟩

/-- C8 amended: `AddAudioElement` returns a typed error exactly when the new
element's `AudioElementType` differs from the last configured element's type
— where each Ambisonic order is a distinct type, so Ambisonic elements of
different orders are rejected — or the new total input channel count would
exceed the configured maximum; and when neither holds (and the HRIR assets
are well-formed for the renderer rate and the configured orders are in
range) the call succeeds. -/
theorem claim_C8 (T : RealFuns ℚ) (assetData : ℕ → Bool → WavData)
    (resample : WavData → ℤ → AudioBufferM) (maxInputChannels : ℕ)
    (s : ObrImpl) (t : AudioElementType) :
    ((∃ m s', addAudioElement T assetData resample maxInputChannels s t
        = ObrResult.err m s')
      ↔ ((∃ last, s.audioElements.getLast? = some last ∧ last.type ≠ t)
          ∨ maxInputChannels < getNumberOfInputChannels s
              + (mkAudioElementConfig t).numberOfInputChannels))
    ∧ (assetsWellFormed assetData s.samplingRate →
        (∀ e ∈ s.audioElements, 1 ≤ e.binauralFiltersAmbisonicOrder
          ∧ e.binauralFiltersAmbisonicOrder ≤ 7) →
        (∀ last, s.audioElements.getLast? = some last → last.type = t) →
        getNumberOfInputChannels s
            + (mkAudioElementConfig t).numberOfInputChannels
          ≤ maxInputChannels →
        ∃ s2, addAudioElement T assetData resample maxInputChannels s t
          = ObrResult.ok s2) :=
  ⟨addAudioElement_err_iff T assetData resample maxInputChannels s t,
   fun hwf hord hnomis hnobud =>
    addAudioElement_ok T assetData resample maxInputChannels s t
      hwf hord hnomis hnobud⟩

theorem claim_C8_witness :
    (∃ s2, addAudioElement T0 A0 R0 64 (mkObrImpl 256 48000)
        AudioElementType.k1OA = ObrResult.ok s2)
    ∧ ((∃ m s', addAudioElement T0 A0 R0 64 sEl3OA AudioElementType.k1OA
        = ObrResult.err m s')
      ↔ ((∃ last, sEl3OA.audioElements.getLast? = some last
            ∧ last.type ≠ AudioElementType.k1OA)
          ∨ 64 < getNumberOfInputChannels sEl3OA
              + (mkAudioElementConfig AudioElementType.k1OA).numberOfInputChannels)) :=
  ⟨(claim_C8 T0 A0 R0 64 (mkObrImpl 256 48000) AudioElementType.k1OA).2
      A0_wellFormed
      (by intro e he; simp [mkObrImpl] at he)
      (by intro last hlast; simp [mkObrImpl] at hlast)
      (by decide),
   (claim_C8 T0 A0 R0 64 sEl3OA AudioElementType.k1OA).1⟩

/-- C4 counterexample: with two (same-order) Ambisonic elements configured —
a combination `AddAudioElement` accepts — the mix bed after the encode stage
is not the input channel-for-channel: bed channel 0 receives the sum of
input channels 0 and 4, so for an input that is zero on channel 0 and one on
channel 4 the bed differs from the input at channel 0, frame 0. -/
theorem claim_C4_counterexample :
    (∀ e ∈ sTwo1OA.audioElements, isAmbisonicsType e.type = true)
    ∧ encodeStageBed sTwo1OA inputTwo1OA 0 0 = 1
    ∧ inputTwo1OA 0 0 = 0
    ∧ encodeStageBed sTwo1OA inputTwo1OA 0 0 ≠ inputTwo1OA 0 0 := by
  refine ⟨by decide, by decide, by decide, by decide⟩

/-- C4 amended: for a renderer configured only with Ambisonic elements, the
mix bed after the encode stage of `Process` carries, in each bed channel,
the sum over the configured elements of that element's corresponding input
channel (the encoder contributes nothing and no residue from previous
blocks remains, the bed being rebuilt from cleared state each block); in
particular with exactly one Ambisonic element starting at input channel 0
the bed equals the input channel-for-channel and sample-for-sample. -/
theorem claim_C4 (s : ObrImpl) (input : ℕ → ℕ → ℚ)
    (hamb : ∀ e ∈ s.audioElements, isAmbisonicsType e.type) :
    (∀ ch f, encodeStageBed s input ch f
      = ((s.audioElements.filter (fun e => ch < e.numberOfInputChannels)).map
          (fun e => input (e.firstChannelIndex + ch) f)).sum)
    ∧ (∀ e, s.audioElements = [e] → e.firstChannelIndex = 0 →
        ∀ ch f, ch < e.numberOfInputChannels →
          encodeStageBed s input ch f = input ch f) := by
  constructor
  · intro ch f
    exact encodeStageBed_allAmbisonic s input hamb ch f
  · intro e he hfirst ch f hch
    rw [encodeStageBed_allAmbisonic s input hamb ch f, he]
    rw [List.filter_cons_of_pos (by simpa using hch), List.filter_nil,
      List.map_cons, List.map_nil, List.sum_cons, List.sum_nil, hfirst,
      Nat.zero_add, add_zero]

theorem claim_C4_witness :
    encodeStageBed sTwo1OA inputTwo1OA 1 0
      = ((sTwo1OA.audioElements.filter (fun e => 1 < e.numberOfInputChannels)).map
          (fun e => inputTwo1OA (e.firstChannelIndex + 1) 0)).sum :=
  (claim_C4 sTwo1OA inputTwo1OA (by decide)).1 1 0

/-- C1 counterexample: a missing HRIR asset key does not produce a typed
error — `BinauralFiltersWrapper::GetFile` returns null for the unknown key
`"8OA_L"` and `CreateShHrirsFromAssets` then dies through
`ABSL_DIE_IF_NULL` (modelled as the `fatal` outcome, which is process
termination, not an error return). -/
theorem claim_C1_counterexample :
    binauralFiltersGetFile A0 "8OA_L" = none
    ∧ createShHrirsFromAssets A0 R0 "8OA_L" 48000 = HrirLoadResult.fatal
    ∧ HrirLoadResult.fatal ≠ HrirLoadResult.ok ⟨0, 0, []⟩ :=
  ⟨rfl, rfl, by decide⟩

/-- C1 amended: the same-kind and channel-budget configuration errors do
return typed errors with human-readable messages, but the two loader
failures named by the claim abort the process instead of returning an
error: a missing HRIR asset key dies through `ABSL_DIE_IF_NULL`, and an
unsupported sample-rate pair hits `LOG(FATAL)`. -/
theorem claim_C1 :
    (∀ (assetData : ℕ → Bool → WavData) (resample : WavData → ℤ → AudioBufferM)
        (name : String) (rate : ℤ),
      binauralFiltersGetFile assetData name = none →
      createShHrirsFromAssets assetData resample name rate
        = HrirLoadResult.fatal)
    ∧ (∀ (resample : WavData → ℤ → AudioBufferM) (wav : WavData) (rate : ℤ),
        wav.sampleRate ≠ rate →
        areSampleRatesSupported wav.sampleRate rate = false →
        createShHrirsFromWav resample wav rate = HrirLoadResult.fatal)
    ∧ (∀ (T : RealFuns ℚ) (assetData : ℕ → Bool → WavData)
        (resample : WavData → ℤ → AudioBufferM) (maxInputChannels : ℕ)
        (s : ObrImpl) (t : AudioElementType) (m : String) (s' : ObrImpl),
        addAudioElement T assetData resample maxInputChannels s t
          = ObrResult.err m s' → m ≠ "") := by
  refine ⟨?_, ?_, ?_⟩
  · intro assetData resample name rate h
    rw [createShHrirsFromAssets, h]
  · intro resample wav rate hne hunsup
    rw [createShHrirsFromWav]
    by_cases hval : ¬isValidAmbisonicOrderChannels wav.numChannels = true
    · rw [if_pos hval]
    · rw [if_neg hval]
      simp only
      rw [if_pos hne, if_pos (by simp [hunsup])]
  · intro T assetData resample maxInputChannels s t m s' h
    rw [addAudioElement] at h
    simp only at h
    split_ifs at h with hmis hbud
    · injection h with h1 h2
      rw [← h1]
      decide
    · injection h with h1 h2
      rw [← h1]
      decide
    · split at h
      · exact absurd h (fun hc => ObrResult.noConfusion hc)
      · rename_i m2 s2 hsplit
        refine absurd hsplit (initializeDsp_ne_err T assetData resample _ ?_ ?_ m2 s2)
        · simp only
          intro hcontra
          exact List.cons_ne_nil _ _ (List.append_eq_nil.mp hcontra).2
        · show getNumberOfInputChannels
            { s with audioElements := s.audioElements
                ++ [(mkAudioElementConfig t).setFirstChannelIndex _] } ≠ 0
          rw [getNumberOfInputChannels]
          simp only [List.map_append, List.sum_append, List.map_cons,
            List.map_nil, List.sum_cons, List.sum_nil,
            setFirstChannelIndex_channels]
          have := mkAudioElementConfig_channels_pos t
          omega
      · exact absurd h (fun hc => ObrResult.noConfusion hc)

theorem claim_C1_witness :
    createShHrirsFromAssets A0 R0 "0OA_L" 48000 = HrirLoadResult.fatal
    ∧ createShHrirsFromWav R0 ⟨4, 96000, []⟩ 48000 = HrirLoadResult.fatal
    ∧ "Only same-typed audio elements are supported." ≠ "" :=
  ⟨claim_C1.1 A0 R0 "0OA_L" 48000 rfl,
   claim_C1.2.1 R0 ⟨4, 96000, []⟩ 48000 (by decide) (by decide),
   claim_C1.2.2 T0 A0 R0 64 sEl3OA AudioElementType.kObjectMono _ sEl3OA rfl⟩

/-- C3: for every transcendental interpretation and every coherent encoder
state (column/cache coherence at the touched channel, which holds in every
reachable state), `SetSource(c, gain, azimuth, elevation, distance)` leaves
column `c` of the encoding matrix equal to: `g = gain / max(distance, 0.5)`;
the zero column when `g < 10^-6`; otherwise `g` times the SN3D-normalized
real spherical-harmonic coefficients of `(azimuth, elevation)` in ACN
order — the entry at ACN index `ℓ(ℓ+1)+m` being
`K_ℓ^|m| · P_ℓ^|m|(sin el) · (cos(m·az) / sin(-m·az))` scaled by `g`. -/
theorem claim_C3 (T : RealFuns ℚ) (enc : AmbisonicEncoder ℚ) (c : ℕ)
    (gain az el dist : ℚ) (hinv : encInvAt T enc c) :
    ((setSource T enc c gain az el dist).encodingMatrix c
      = (if gain / max dist (1 / 2) < kNegative120dbInAmplitude
          then List.replicate enc.numberOfOutputChannels 0
          else (getShCoeffs T az el enc.ambisonicOrder).map
            (· * (gain / max dist (1 / 2)))))
    ∧ (∀ (ℓ : ℕ) (m : ℤ), ℓ ≤ enc.ambisonicOrder → m.natAbs ≤ ℓ →
        ¬gain / max dist (1 / 2) < kNegative120dbInAmplitude →
        ((setSource T enc c gain az el dist).encodingMatrix c).getD
            (acnSequence ℓ m).toNat 0
          = shEntry T (az * T.radiansFromDegrees) (el * T.radiansFromDegrees)
              ℓ m * (gain / max dist (1 / 2))) :=
  ⟨setSource_matrix_closed_form T enc c gain az el dist hinv,
   fun ℓ m hℓ hm hloud =>
    setSource_matrix_acn_entry T enc c gain az el dist hinv ℓ m hℓ hm hloud⟩

theorem claim_C3_witness :
    ((setSource T0 (mkAmbisonicEncoder 1 1) 0 1 0 0 1).encodingMatrix 0
      = (if (1 : ℚ) / max 1 (1 / 2) < kNegative120dbInAmplitude
          then List.replicate
            (mkAmbisonicEncoder 1 1 : AmbisonicEncoder ℚ).numberOfOutputChannels 0
          else (getShCoeffs T0 0 0
              (mkAmbisonicEncoder 1 1 : AmbisonicEncoder ℚ).ambisonicOrder).map
            (· * ((1 : ℚ) / max 1 (1 / 2)))))
    ∧ ((setSource T0 (mkAmbisonicEncoder 1 1) 0 1 0 0 1).encodingMatrix 0).getD
        (acnSequence 0 0).toNat 0
      = shEntry T0 (0 * T0.radiansFromDegrees) (0 * T0.radiansFromDegrees)
          0 0 * ((1 : ℚ) / max 1 (1 / 2)) :=
  ⟨(claim_C3 T0 (mkAmbisonicEncoder 1 1) 0 1 0 0 1 (mk_encInvAt T0 1 1 0)).1,
   (claim_C3 T0 (mkAmbisonicEncoder 1 1) 0 1 0 0 1 (mk_encInvAt T0 1 1 0)).2
     0 0 (by decide) (by decide) (by decide)⟩

/-- C7: `SetSource` is idempotent — repeating a call with the identical
(gain, azimuth, elevation, distance) tuple on the same channel is a no-op on
the entire encoder state (the cached-tuple comparison returns early), so a
subsequent `ProcessPlanarAudioData` output is bitwise identical. -/
theorem claim_C7 {α : Type} [LinearOrderedField α] (T : RealFuns α)
    (enc : AmbisonicEncoder α) (c : ℕ) (g a e d : α) (input : ℕ → ℕ → α) :
    setSource T (setSource T enc c g a e d) c g a e d
        = setSource T enc c g a e d
    ∧ processPlanarAudioData (setSource T (setSource T enc c g a e d) c g a e d)
          input
        = processPlanarAudioData (setSource T enc c g a e d) input :=
  ⟨setSource_idem T enc c g a e d, by rw [setSource_idem]⟩

/-- C5: the peak limiter starts with envelope 1, and on each block it
computes per frame `i` the cross-channel peak `m_i = max_k |x_{k,i}|`, the
required gain `g_i = c/m_i` if `m_i > c` else 1 (for the ceiling `c`), updates
the envelope by `e := g_i` on attack (`g_i < e`) and
`e := α·(e − g_i) + g_i` on release, and multiplies every channel's frame `i`
by the updated envelope; the final envelope is carried in the returned
state. -/
theorem claim_C5 (st : PeakLimiter ℚ) (input : List (List ℚ)) (F : ℕ)
    (hne : input ≠ []) (hlen : ∀ ch ∈ input, ch.length = F) :
    (∀ c rtc : ℚ, (mkPeakLimiter c rtc).env = 1)
    ∧ st.process input
      = (input.map
           (fun ch =>
             ch.zipWith (· * ·)
               (List.tail
                 (List.scanl (specEnvStep st.ceiling st.releaseTimeConstant)
                   st.env ((List.range F).map (specFrameMax input))))),
         PeakLimiter.mk st.ceiling st.releaseTimeConstant
           (List.foldl (specEnvStep st.ceiling st.releaseTimeConstant) st.env
             ((List.range F).map (specFrameMax input)))) :=
  ⟨fun _ _ => rfl, limiter_process_spec st input F hne hlen⟩

theorem claim_C5_witness :
    (∀ c rtc : ℚ, (mkPeakLimiter c rtc).env = 1)
    ∧ (⟨2, 1/2, 1⟩ : PeakLimiter ℚ).process [[3], [1]]
      = ([[3], [1]].map
           (fun ch =>
             ch.zipWith (· * ·)
               (List.tail
                 (List.scanl (specEnvStep (2 : ℚ) (1/2)) 1
                   ((List.range 1).map (specFrameMax [[3], [1]]))))),
         PeakLimiter.mk (2 : ℚ) (1/2)
           (List.foldl (specEnvStep (2 : ℚ) (1/2)) 1
             ((List.range 1).map (specFrameMax [[3], [1]])))) :=
  claim_C5 ⟨2, 1/2, 1⟩ [[3], [1]] 1 (by decide)
    (by intro ch hch; fin_cases hch <;> rfl)

/-- C6: the limiter's output is independent of block partitioning — feeding
well-formed blocks (each with the full channel count and rectangular frames)
through `Process` in order yields the same final state, and the concatenation
of the per-block outputs equals the output of processing the concatenated
signal as one block. -/
theorem claim_C6 (st : PeakLimiter ℚ) (bs : List (List (List ℚ))) (C : ℕ)
    (h : ∀ b ∈ bs, b.length = C ∧ ∃ F, ∀ ch ∈ b, ch.length = F) :
    (processBlocks st bs).2 = (st.process (joinBlocks C bs)).2 ∧
      joinBlocks C (processBlocks st bs).1 = (st.process (joinBlocks C bs)).1 :=
  limiter_blocks_split st bs C h

theorem claim_C6_witness :
    (processBlocks (⟨2, 1/2, 1⟩ : PeakLimiter ℚ) [[[1], [2]], [[3], [4]]]).2
        = ((⟨2, 1/2, 1⟩ : PeakLimiter ℚ).process
            (joinBlocks 2 [[[1], [2]], [[3], [4]]])).2 ∧
      joinBlocks 2 (processBlocks (⟨2, 1/2, 1⟩ : PeakLimiter ℚ)
          [[[1], [2]], [[3], [4]]]).1
        = ((⟨2, 1/2, 1⟩ : PeakLimiter ℚ).process
            (joinBlocks 2 [[[1], [2]], [[3], [4]]])).1 :=
  claim_C6 ⟨2, 1/2, 1⟩ [[[1], [2]], [[3], [4]]] 2
    (by intro b hb; fin_cases hb <;> exact ⟨rfl, 1, by intro ch hch; fin_cases hch <;> rfl⟩)

/-- C9 counterexample: `v = 513` lies in `[-0x7FFF, 0x7FFF]`, yet the int16 →
float → int16 round trip returns 512, not 513: `ConvertSampleToFloatFormat`
multiplies by the float constant `1/32767` (two binary32 roundings), and
truncation toward zero in `ConvertSampleFromFloatFormat` drops the resulting
slightly-low product below 513. -/
theorem claim_C9_counterexample :
    (-0x7FFF : ℤ) ≤ 513 ∧ (513 : ℤ) ≤ 0x7FFF
      ∧ roundtripInt16 513 = 512 ∧ roundtripInt16 513 ≠ 513 :=
  ⟨by decide, by decide, by decide, by decide⟩

set_option maxRecDepth 40000 in
set_option maxHeartbeats 1600000 in
theorem roundtrip_chunk0 :
    ∀ v ∈ Finset.Icc (-512 : ℤ) (-257), roundtripInt16 v = v := by decide

set_option maxRecDepth 40000 in
set_option maxHeartbeats 1600000 in
theorem roundtrip_chunk1 :
    ∀ v ∈ Finset.Icc (-256 : ℤ) (-1), roundtripInt16 v = v := by decide

set_option maxRecDepth 40000 in
set_option maxHeartbeats 1600000 in
theorem roundtrip_chunk2 :
    ∀ v ∈ Finset.Icc (0 : ℤ) 255, roundtripInt16 v = v := by decide

set_option maxRecDepth 40000 in
set_option maxHeartbeats 1600000 in
theorem roundtrip_chunk3 :
    ∀ v ∈ Finset.Icc (256 : ℤ) 512, roundtripInt16 v = v := by decide

/-- C9 (amended): the int16 → float → int16 round trip is the identity for
every integer `v` with `|v| ≤ 512`; beyond that magnitude the two roundings
plus truncation can (and at 513 first do) lose the low bit. -/
theorem claim_C9 : ∀ v ∈ Finset.Icc (-512 : ℤ) 512, roundtripInt16 v = v := by
  intro v hv
  rw [Finset.mem_Icc] at hv
  by_cases h1 : v ≤ -257
  · exact roundtrip_chunk0 v (Finset.mem_Icc.mpr ⟨hv.1, h1⟩)
  · by_cases h2 : v ≤ -1
    · exact roundtrip_chunk1 v (Finset.mem_Icc.mpr ⟨by omega, h2⟩)
    · by_cases h3 : v ≤ 255
      · exact roundtrip_chunk2 v (Finset.mem_Icc.mpr ⟨by omega, h3⟩)
      · exact roundtrip_chunk3 v (Finset.mem_Icc.mpr ⟨by omega, hv.2⟩)

theorem claim_C9_witness : roundtripInt16 100 = 100 :=
  claim_C9 100 (Finset.mem_Icc.mpr (by decide))

end ClaimTheorems

end ObrSpec
